import Mathlib

/-!
Verification development for the Lyryc core (src-tauri/src/track_cleaning.rs,
src-tauri/src/lyrics.rs).

Modelling conventions:
* A Rust `String`/`&str` is modelled as `List Char` (`RStr`); Lean `Char` and
  Rust `char` are both Unicode scalar values.  Rust's `str::len` is the UTF-8
  byte length, modelled by `byteLen`.
* Rust `f64` times in the lyrics code are modelled as `ℚ`.  Every number the
  code manipulates there (mm, ss, cc/100, 3.0, 5.0 and their sums/products)
  is small and the orderings/equalities the theorems state coincide between
  exact rationals and IEEE doubles on these values.
* A Rust panic is modelled as `Option.none`: fallible byte slicing
  (`s[a..b]`) returns `none` when `a` or `b` is not a character boundary,
  and the cleaner propagates it.
* The `regex` crate patterns used by the cleaner are transcribed one by one
  into a small inductive pattern language `RE` with a priority-ordered
  backtracking matcher (leftmost-first match, greedy/lazy stars), matching
  the crate's Perl-style capture semantics for these patterns.  Character
  case folding for `(?i)` / `to_lowercase` is modelled with `Char.toLower`
  (ASCII folding); all case-insensitive literals in the source are ASCII.
  `\s` is the Unicode White_Space class, as in Rust; `\d` is modelled as the
  ASCII digit class.
-/

abbrev RStr := List Char

/-- UTF-8 encoded size of a scalar value, as used by Rust's `str::len`. -/
def utf8Sz (c : Char) : Nat :=
  if c.toNat < 0x80 then 1
  else if c.toNat < 0x800 then 2
  else if c.toNat < 0x10000 then 3
  else 4

/-- Rust `str::len` (UTF-8 byte length). -/
def byteLen (s : RStr) : Nat := (s.map utf8Sz).sum

/-- Unicode `White_Space` (Rust `char::is_whitespace`, and the regex crate's
`\s` class, which both use the `White_Space` property). -/
def isWs (c : Char) : Bool :=
  let n := c.toNat
  n = 0x20 || (0x9 <= n && n <= 0xD) || n = 0x85 || n = 0xA0 || n = 0x1680 ||
  (0x2000 <= n && n <= 0x200A) || n = 0x2028 || n = 0x2029 || n = 0x202F ||
  n = 0x205F || n = 0x3000

/-- Rust `str::trim_start`. -/
def ltrim (s : RStr) : RStr := s.dropWhile isWs

/-- Rust `str::trim_end`. -/
def rtrim (s : RStr) : RStr := (s.reverse.dropWhile isWs).reverse

/-- Rust `str::trim`. -/
def trimS (s : RStr) : RStr := rtrim (ltrim s)

/-- ASCII lowercase map, modelling `char` case folding for the ASCII
letters that appear in the source's case-insensitive comparisons. -/
def lowerS (s : RStr) : RStr := s.map Char.toLower

/-- Rust `str::contains(&str)` (substring search). -/
def containsS (s sub : RStr) : Bool :=
  match s with
  | [] => sub.isEmpty
  | c :: r => sub.isPrefixOf (c :: r) || containsS r sub

/-- Rust `str::starts_with(char)`. -/
def startsWithC (s : RStr) (c : Char) : Bool :=
  match s with
  | [] => false
  | a :: _ => a = c

/-- Rust `str::ends_with(char)`. -/
def endsWithC (s : RStr) (c : Char) : Bool := startsWithC s.reverse c

/-- Rust `str::starts_with(&str)`. -/
def startsWithS (s pre : RStr) : Bool := pre.isPrefixOf s

/-- Rust `str::ends_with(&str)`. -/
def endsWithS (s suf : RStr) : Bool := suf.isSuffixOf s

/-- Rust byte slicing `s[a..b]`: `none` models the panic on a non-boundary
index.  Walks the characters accumulating UTF-8 offsets; both endpoints must
land exactly on character boundaries. -/
def sliceBytes (s : RStr) (a b : Nat) : Option RStr :=
  match s, a, b with
  | _, 0, 0 => some []
  | [], _, _ => none
  | c :: rest, 0, b =>
    if utf8Sz c ≤ b then
      (sliceBytes rest 0 (b - utf8Sz c)).map (c :: ·)
    else none
  | c :: rest, a, b =>
    if utf8Sz c ≤ a ∧ utf8Sz c ≤ b then
      sliceBytes rest (a - utf8Sz c) (b - utf8Sz c)
    else none

/-- Split on a single separator character (always returns ≥ 1 pieces). -/
def splitChar (sep : Char) : RStr → List RStr
  | [] => [[]]
  | c :: r =>
    match splitChar sep r with
    | [] => [[]]
    | h :: t => if c = sep then [] :: h :: t else (c :: h) :: t

/-- Leftmost-first split on a (non-empty) separator substring, as Rust's
`str::split(&str)`. -/
def splitSub (sep : RStr) : RStr → List RStr
  | [] => [[]]
  | c :: r =>
    if sep.isPrefixOf (c :: r) then
      match splitSub sep (List.drop (sep.length - 1) r) with
      | [] => [[]]
      | parts => [] :: parts
    else
      match splitSub sep r with
      | [] => [[]]
      | h :: t => (c :: h) :: t
  termination_by s => s.length
  decreasing_by
    · simp only [List.length_cons, List.length_drop]; omega
    · simp only [List.length_cons]; omega

/-- Rust `str::replace(from, to)` (all non-overlapping occurrences,
leftmost first). -/
def replaceSub (s pat rep : RStr) : RStr :=
  match s with
  | [] => []
  | c :: r =>
    if pat ≠ [] ∧ pat.isPrefixOf (c :: r) then
      rep ++ replaceSub (List.drop (pat.length - 1) r) pat rep
    else
      c :: replaceSub r pat rep
  termination_by s.length
  decreasing_by
    · simp only [List.length_cons, List.length_drop]; omega
    · simp only [List.length_cons]; omega

/-! ### A tiny pattern language for the source's regexes

Each regex literal of the Rust source is transcribed into an `RE` term.
`mAll` enumerates the possible matches of a pattern at the start of a
string in backtracking priority order (greedy stars try more iterations
first, lazy stars fewer), which is the order in which a Perl-style engine
— and the `regex` crate's leftmost-first capture semantics — resolves
them.  Stars require progress (their bodies here are never nullable). -/

inductive RE where
  | eps
  | cls (p : Char → Bool)
  | seq (a b : RE)
  | alt (a b : RE)
  | starG (a : RE)
  | starL (a : RE)
  | group (i : Nat) (a : RE)
  | eos

/-- Capture environment: group index ↦ captured characters. -/
abbrev Caps := List (Nat × RStr)

/-- One match attempt outcome: consumed characters, remaining suffix,
captures. -/
abbrev MRes := RStr × RStr × Caps

/-- Iterate a star body (≥0 times, each iteration consuming ≥1 char).
`greedy` puts the longer expansions first. -/
def starIter (body : RStr → Caps → List MRes) (greedy : Bool) :
    Nat → RStr → Caps → List MRes
  | 0, s, cp => [([], s, cp)]
  | fuel + 1, s, cp =>
    let iter :=
      ((body s cp).filter (fun r => !r.1.isEmpty)).flatMap
        (fun x =>
          (starIter body greedy fuel x.2.1 x.2.2).map
            (fun y => (x.1 ++ y.1, y.2.1, y.2.2)))
    if greedy then iter ++ [([], s, cp)] else ([], s, cp) :: iter

/-- All matches of `re` at the start of `s`, in priority order. -/
def mAll : RE → RStr → Caps → List MRes
  | .eps, s, cp => [([], s, cp)]
  | .eos, s, cp => if s.isEmpty then [([], s, cp)] else []
  | .cls p, s, cp =>
    match s with
    | [] => []
    | c :: r => if p c then [([c], r, cp)] else []
  | .seq a b, s, cp =>
    (mAll a s cp).flatMap
      (fun x =>
        (mAll b x.2.1 x.2.2).map (fun y => (x.1 ++ y.1, y.2.1, y.2.2)))
  | .alt a b, s, cp => mAll a s cp ++ mAll b s cp
  | .starG a, s, cp => starIter (mAll a) true (s.length + 1) s cp
  | .starL a, s, cp => starIter (mAll a) false (s.length + 1) s cp
  | .group i a, s, cp =>
    (mAll a s cp).map (fun x => (x.1, x.2.1, (i, x.1) :: x.2.2))

/-- First (highest-priority) match of an anchored pattern (`^...`). -/
def findAnchored (re : RE) (s : RStr) : Option MRes := (mAll re s []).head?

/-- Leftmost-first match of an unanchored pattern: `(prefix, matched,
suffix, captures)`. -/
def findFirst (re : RE) : RStr → Option (RStr × RStr × RStr × Caps)
  | [] =>
    match findAnchored re [] with
    | some (m, r, cp) => some ([], m, r, cp)
    | none => none
  | c :: rest =>
    match findAnchored re (c :: rest) with
    | some (m, r, cp) => some ([], m, r, cp)
    | none =>
      (findFirst re rest).map (fun q => (c :: q.1, q.2))

/-- `Regex::replace_all(s, rep)` driver (fuel-indexed; the string shrinks
at every step, so `s.length + 1` fuel is exact). -/
def replaceAllAux (re : RE) (rep : RStr) : Nat → RStr → RStr
  | 0, s => s
  | fuel + 1, s =>
    match findFirst re s with
    | none => s
    | some (pre, m, post, _) =>
      if m.isEmpty then
        match post with
        | [] => pre ++ rep
        | c :: pr => pre ++ rep ++ c :: replaceAllAux re rep fuel pr
      else pre ++ rep ++ replaceAllAux re rep fuel post

/-- `Regex::replace_all` with replacement `rep`. -/
def replaceAllRE (re : RE) (rep : RStr) (s : RStr) : RStr :=
  replaceAllAux re rep (s.length + 1) s

/-- Look up capture group `i`. -/
def capGet (cp : Caps) (i : Nat) : Option RStr :=
  (cp.find? (fun x => x.1 = i)).map (·.2)

/-! Pattern-building helpers. -/

def rlit (c : Char) : RE := .cls (· = c)

/-- Case-insensitive literal (`(?i)`), ASCII folding. -/
def rlitCI (c : Char) : RE := .cls (fun x => x.toLower = c.toLower)

def rseq (l : List RE) : RE := l.foldr .seq .eps

def rstr (s : String) : RE := rseq (s.toList.map rlit)

def rstrCI (s : String) : RE := rseq (s.toList.map rlitCI)

def raltN (l : List RE) : RE := l.foldr .alt (.cls (fun _ => false))

/-- `.` (any char except newline). -/
def rdot : RE := .cls (· ≠ '\n')

/-- `\s`. -/
def rws : RE := .cls isWs

/-- `\d` (ASCII model). -/
def rdig : RE := .cls Char.isDigit

def rplusG (a : RE) : RE := .seq a (.starG a)

def rplusL (a : RE) : RE := .seq a (.starL a)

/-- Greedy `a?`. -/
def roptG (a : RE) : RE := .alt a .eps

/-- `[^c]` for a single excluded char. -/
def rnot (c : Char) : RE := .cls (· ≠ c)

/-- Character class from an explicit list. -/
def rany (cs : List Char) : RE := .cls (fun x => cs.contains x)

/-- `[^...]` for an excluded list. -/
def rnone (cs : List Char) : RE := .cls (fun x => !cs.contains x)

/-! ### track_cleaning.rs — `clean_track_name`

Every pattern below is the transcription of one regex literal of
`clean_track_name` (src-tauri/src/track_cleaning.rs); the stage functions
mirror its control flow in source order.  The cleanup patterns of lines
95–151 are applied under the extra `(?i)` wrapper of line 155, so all
their ASCII literals are case-insensitive. -/

/-- Line 12: `「([^」]+)」`. -/
def jquoteRE : RE := rseq [rlit '「', .group 1 (rplusG (rnot '」')), rlit '」']

/-- Lines 32/63: a run of separator chars (`\-` `/` `｜` `／` `|` `:` `：`
`‐` `‑` `‒` `–` `—` `―`) followed by `.*$` (strip the run and everything
after it). -/
def sepStripRE : RE :=
  rseq [rplusG (rany ['-', '/', '｜', '／', '|', ':', '：', '‐', '‑', '‒', '–', '—', '―']),
        .starG rdot, .eos]

/-- Lines 32–42 / 63–73: conditional separator strip of an extracted
bracket content. -/
def sepStrip (extracted : RStr) : RStr :=
  let ce := trimS (replaceAllRE sepStripRE [] extracted)
  if ce ≠ [] ∧ byteLen ce > 1 then ce else extracted

/-- Lines 12–22: Japanese quote extraction (returns early on success). -/
def stageJQuote (s : RStr) : Option RStr :=
  match findFirst jquoteRE s with
  | some (_, _, _, cp) =>
    match capGet cp 1 with
    | some g =>
      let extracted := trimS g
      if extracted ≠ [] ∧ byteLen extracted > 2 then some extracted else none
    | none => none
  | none => none

/-- Line 26: `【[^】]*】([^【】]+)【[^】]*】`. -/
def jmidRE : RE :=
  rseq [rlit '【', .starG (rnot '】'), rlit '】',
        .group 1 (rplusG (rnone ['【', '】'])),
        rlit '【', .starG (rnot '】'), rlit '】']

/-- Lines 26–48: nested-bracket middle extraction. -/
def stageJMid (s : RStr) : Option RStr :=
  match findFirst jmidRE s with
  | some (_, _, _, cp) =>
    match capGet cp 1 with
    | some g =>
      let extracted := trimS g
      if extracted ≠ [] ∧ byteLen extracted > 1 then some (sepStrip extracted)
      else none
    | none => none
  | none => none

/-- Line 51: `【([^】]+)】`. -/
def jsingleRE : RE := rseq [rlit '【', .group 1 (rplusG (rnot '】')), rlit '】']

/-- Lines 51–79: single Japanese bracket extraction. -/
def stageJSingle (s : RStr) : Option RStr :=
  match findFirst jsingleRE s with
  | some (_, _, _, cp) =>
    match capGet cp 1 with
    | some g =>
      let extracted := trimS g
      if extracted ≠ [] ∧ byteLen extracted > 2 ∧
          ¬ containsS (lowerS extracted) ("cover".toList) ∧
          ¬ containsS (lowerS extracted) ("mv".toList) ∧
          ¬ containsS (lowerS extracted) ("video".toList) ∧
          ¬ containsS (lowerS extracted) ("official".toList) then
        some (sepStrip extracted)
      else none
    | none => none
  | none => none

/-- Line 82: `『([^』]+)』`. -/
def jcornerRE : RE := rseq [rlit '『', .group 1 (rplusG (rnot '』')), rlit '』']

/-- Lines 82–92: Japanese corner bracket extraction. -/
def stageJCorner (s : RStr) : Option RStr :=
  match findFirst jcornerRE s with
  | some (_, _, _, cp) =>
    match capGet cp 1 with
    | some g =>
      let extracted := trimS g
      if extracted ≠ [] ∧ byteLen extracted > 2 then some extracted else none
    | none => none
  | none => none

/-- Line 97: `\s*-\s*YouTube\s*Music\s*$`. -/
def cp01 : RE :=
  rseq [.starG rws, rlit '-', .starG rws, rstrCI ("YouTube"), .starG rws,
        rstrCI ("Music"), .starG rws, .eos]

/-- Line 98: `\s*-\s*YouTube\s*$`. -/
def cp02 : RE :=
  rseq [.starG rws, rlit '-', .starG rws, rstrCI ("YouTube"), .starG rws, .eos]

/-- Line 100: `\s*\(.*?(?i:official|music|lyric).*?(?i:video|audio).*?\)`. -/
def cp03 : RE :=
  rseq [.starG rws, rlit '(', .starL rdot,
        raltN [rstrCI ("official"), rstrCI ("music"), rstrCI ("lyric")],
        .starL rdot, raltN [rstrCI ("video"), rstrCI ("audio")],
        .starL rdot, rlit ')']

/-- Line 101: the same with `【..】`. -/
def cp04 : RE :=
  rseq [.starG rws, rlit '【', .starL rdot,
        raltN [rstrCI ("official"), rstrCI ("music"), rstrCI ("lyric")],
        .starL rdot, raltN [rstrCI ("video"), rstrCI ("audio")],
        .starL rdot, rlit '】']

/-- Line 102: the same with `[..]`. -/
def cp05 : RE :=
  rseq [.starG rws, rlit '[', .starL rdot,
        raltN [rstrCI ("official"), rstrCI ("music"), rstrCI ("lyric")],
        .starL rdot, raltN [rstrCI ("video"), rstrCI ("audio")],
        .starL rdot, rlit ']']

/-- Line 104: `\s*\(.*?(?i:mv).*?\)`. -/
def cp06 : RE :=
  rseq [.starG rws, rlit '(', .starL rdot, rstrCI ("mv"), .starL rdot, rlit ')']

/-- Line 105: `\s*【.*?(?i:mv).*?】`. -/
def cp07 : RE :=
  rseq [.starG rws, rlit '【', .starL rdot, rstrCI ("mv"), .starL rdot, rlit '】']

/-- Line 106: `\s*\[.*?(?i:mv).*?\]`. -/
def cp08 : RE :=
  rseq [.starG rws, rlit '[', .starL rdot, rstrCI ("mv"), .starL rdot, rlit ']']

/-- Line 108: `\.(?i:flv|mp4|avi|mov|wmv|mkv)$`. -/
def cp09 : RE :=
  rseq [rlit '.',
        raltN [rstrCI ("flv"), rstrCI ("mp4"), rstrCI ("avi"), rstrCI ("mov"),
               rstrCI ("wmv"), rstrCI ("mkv")], .eos]

/-- Line 110: `\s*\[.*?(?i:playlist).*?\]`. -/
def cp10 : RE :=
  rseq [.starG rws, rlit '[', .starL rdot, rstrCI ("playlist"), .starL rdot,
        rlit ']']

/-- Line 112: `\s*\(.*?(?i:中文|日本語|한국어|english\s+sub|lyrics?).*?\)`. -/
def cp11 : RE :=
  rseq [.starG rws, rlit '(', .starL rdot,
        raltN [rstr ("中文"), rstr ("日本語"), rstr ("한국어"),
               rseq [rstrCI ("english"), rplusG rws, rstrCI ("sub")],
               rseq [rstrCI ("lyric"), roptG (rlitCI 's')]],
        .starL rdot, rlit ')']

/-- Line 113: the same with `【..】`. -/
def cp12 : RE :=
  rseq [.starG rws, rlit '【', .starL rdot,
        raltN [rstr ("中文"), rstr ("日本語"), rstr ("한국어"),
               rseq [rstrCI ("english"), rplusG rws, rstrCI ("sub")],
               rseq [rstrCI ("lyric"), roptG (rlitCI 's')]],
        .starL rdot, rlit '】']

/-- Line 115: `\s*\[.*?(?i:4k|hd|remaster).*?\]`. -/
def cp13 : RE :=
  rseq [.starG rws, rlit '[', .starL rdot,
        raltN [rstrCI ("4k"), rstrCI ("hd"), rstrCI ("remaster")],
        .starL rdot, rlit ']']

/-- Line 116: `\s*\(.*?(?i:4k).*?\)`. -/
def cp14 : RE :=
  rseq [.starG rws, rlit '(', .starL rdot, rstrCI ("4k"), .starL rdot, rlit ')']

/-- Line 118: `\s*\(feat\.\s+[^)]*\)`. -/
def cp15 : RE :=
  rseq [.starG rws, rlit '(', rstrCI ("feat"), rlit '.', rplusG rws,
        .starG (rnot ')'), rlit ')']

/-- Line 119: `\s*\(ft\.\s+[^)]*\)`. -/
def cp16 : RE :=
  rseq [.starG rws, rlit '(', rstrCI ("ft"), rlit '.', rplusG rws,
        .starG (rnot ')'), rlit ')']

/-- Line 120: `\s*\(featuring\s+[^)]*\)`. -/
def cp17 : RE :=
  rseq [.starG rws, rlit '(', rstrCI ("featuring"), rplusG rws,
        .starG (rnot ')'), rlit ')']

/-- Line 121: `\s+ft\.?\s+@?[^()]*$`. -/
def cp18 : RE :=
  rseq [rplusG rws, rstrCI ("ft"), roptG (rlit '.'), rplusG rws,
        roptG (rlit '@'), .starG (rnone ['(', ')']), .eos]

/-- Line 122: `\s+feat\.?\s+[^()]*$`. -/
def cp19 : RE :=
  rseq [rplusG rws, rstrCI ("feat"), roptG (rlit '.'), rplusG rws,
        .starG (rnone ['(', ')']), .eos]

/-- Line 124: `\s*\(prod\.\s*[^)]*\)`. -/
def cp20 : RE :=
  rseq [.starG rws, rlit '(', rstrCI ("prod"), rlit '.', .starG rws,
        .starG (rnot ')'), rlit ')']

/-- Line 126: `\s*\((?i:visualizer|video|audio)\)`. -/
def cp21 : RE :=
  rseq [.starG rws, rlit '(',
        raltN [rstrCI ("visualizer"), rstrCI ("video"), rstrCI ("audio")],
        rlit ')']

/-- Line 127: `\s*\((?i:acoustic\s+video)\)`. -/
def cp22 : RE :=
  rseq [.starG rws, rlit '(', rstrCI ("acoustic"), rplusG rws, rstrCI ("video"),
        rlit ')']

/-- Line 129: `\s*\([^)]*(?i:中文|chinese|中字版|华纳官方|華納官方)[^)]*\)`. -/
def cp23 : RE :=
  rseq [.starG rws, rlit '(', .starG (rnot ')'),
        raltN [rstr ("中文"), rstrCI ("chinese"), rstr ("中字版"),
               rstr ("华纳官方"), rstr ("華納官方")],
        .starG (rnot ')'), rlit ')']

/-- Line 130: `\s*\([^)]*(?i:english\s+sub|eng\s+sub|subtitle)[^)]*\)`. -/
def cp24 : RE :=
  rseq [.starG rws, rlit '(', .starG (rnot ')'),
        raltN [rseq [rstrCI ("english"), rplusG rws, rstrCI ("sub")],
               rseq [rstrCI ("eng"), rplusG rws, rstrCI ("sub")],
               rstrCI ("subtitle")],
        .starG (rnot ')'), rlit ')']

/-- Line 132: `\s*\((?i:twin\s+ver\.?|version)\)`. -/
def cp25 : RE :=
  rseq [.starG rws, rlit '(',
        raltN [rseq [rstrCI ("twin"), rplusG rws, rstrCI ("ver"), roptG (rlit '.')],
               rstrCI ("version")],
        rlit ')']

/-- Line 133: `\s*\((?i:magic\s+shop\s+demo|demo)\)`. -/
def cp26 : RE :=
  rseq [.starG rws, rlit '(',
        raltN [rseq [rstrCI ("magic"), rplusG rws, rstrCI ("shop"), rplusG rws,
                     rstrCI ("demo")],
               rstrCI ("demo")],
        rlit ')']

/-- Line 134: `\s*\((?i:ryan\s+exley\s+remix|remix)\)`. -/
def cp27 : RE :=
  rseq [.starG rws, rlit '(',
        raltN [rseq [rstrCI ("ryan"), rplusG rws, rstrCI ("exley"), rplusG rws,
                     rstrCI ("remix")],
               rstrCI ("remix")],
        rlit ')']

/-- Line 136: `\s*\((?i:piano\s*&\s*cello|piano\s+version)\)`. -/
def cp28 : RE :=
  rseq [.starG rws, rlit '(',
        raltN [rseq [rstrCI ("piano"), .starG rws, rlit '&', .starG rws,
                     rstrCI ("cello")],
               rseq [rstrCI ("piano"), rplusG rws, rstrCI ("version")]],
        rlit ')']

/-- Line 138: `\s*\((?i:acoustic\s+session|session)\)`. -/
def cp29 : RE :=
  rseq [.starG rws, rlit '(',
        raltN [rseq [rstrCI ("acoustic"), rplusG rws, rstrCI ("session")],
               rstrCI ("session")],
        rlit ')']

/-- Line 140: `\s*\([^)]*(?i:where\s+memory|go\s+to\s+heyyo|don't\s+rain\s+on\s+me|anglerfish's\s+love|the\s+city\s+is\s+eating|devil\s+doesn't\s+bargain)[^)]*\)`. -/
def cp30 : RE :=
  rseq [.starG rws, rlit '(', .starG (rnot ')'),
        raltN [rseq [rstrCI ("where"), rplusG rws, rstrCI ("memory")],
               rseq [rstrCI ("go"), rplusG rws, rstrCI ("to"), rplusG rws,
                     rstrCI ("heyyo")],
               rseq [rstrCI ("don"), rlit '\'', rstrCI ("t"), rplusG rws,
                     rstrCI ("rain"), rplusG rws, rstrCI ("on"), rplusG rws,
                     rstrCI ("me")],
               rseq [rstrCI ("anglerfish"), rlit '\'', rstrCI ("s"), rplusG rws,
                     rstrCI ("love")],
               rseq [rstrCI ("the"), rplusG rws, rstrCI ("city"), rplusG rws,
                     rstrCI ("is"), rplusG rws, rstrCI ("eating")],
               rseq [rstrCI ("devil"), rplusG rws, rstrCI ("doesn"), rlit '\'',
                     rstrCI ("t"), rplusG rws, rstrCI ("bargain")]],
        .starG (rnot ')'), rlit ')']

/-- Line 142: `\s*\((?i:stripped)\)`. -/
def cp31 : RE := rseq [.starG rws, rlit '(', rstrCI ("stripped"), rlit ')']

/-- Line 144: `\s*\(行ってらっしゃい\)`. -/
def cp32 : RE := rseq [.starG rws, rlit '(', rstr ("行ってらっしゃい"), rlit ')']

/-- Line 146: `\s*\((?i:original)\)`. -/
def cp33 : RE := rseq [.starG rws, rlit '(', rstrCI ("original"), rlit ')']

/-- Line 148: `\s*\(Live\s+At\s+[^)]+\)`. -/
def cp34 : RE :=
  rseq [.starG rws, rlit '(', rstrCI ("Live"), rplusG rws, rstrCI ("At"),
        rplusG rws, rplusG (rnot ')'), rlit ')']

/-- Line 150: `\s*/\s*\d{4}\s*$`. -/
def cp35 : RE :=
  rseq [.starG rws, rlit '/', .starG rws, rdig, rdig, rdig, rdig, .starG rws,
        .eos]

/-- Lines 95–151: the cleanup pattern list, in source order. -/
def cleanupPatterns : List RE :=
  [cp01, cp02, cp03, cp04, cp05, cp06, cp07, cp08, cp09, cp10, cp11, cp12,
   cp13, cp14, cp15, cp16, cp17, cp18, cp19, cp20, cp21, cp22, cp23, cp24,
   cp25, cp26, cp27, cp28, cp29, cp30, cp31, cp32, cp33, cp34, cp35]

/-- Lines 154–161 (and the later guarded `replace_all` stages): remove all
matches, trim, and accept only a non-empty result of byte length
`> minLen`. -/
def replaceStage (pat : RE) (minLen : Nat) (c : RStr) : RStr :=
  let p := trimS (replaceAllRE pat [] c)
  if p ≠ [] ∧ byteLen p > minLen then p else c

/-- Lines 153–161: fold of the cleanup patterns (each accepted only when
non-empty and longer than one byte). -/
def applyCleanups (c : RStr) : RStr :=
  cleanupPatterns.foldl (fun c pat => replaceStage pat 1 c) c

/-- Line 164: `^[^-]*\s+feat\.?\s+[^-]*\s*-\s*(.+)$` (case-sensitive). -/
def featDashRE : RE :=
  rseq [.starG (rnot '-'), rplusG rws, rstr ("feat"), roptG (rlit '.'),
        rplusG rws, .starG (rnot '-'), .starG rws, rlit '-', .starG rws,
        .group 1 (rplusG rdot), .eos]

/-- Lines 163–175: "Artist feat. X - Track" handling (runs on the original
input string). -/
def stageFeatDash (original c : RStr) : RStr :=
  match findAnchored featDashRE original with
  | some (_, _, cp) =>
    match capGet cp 1 with
    | some g =>
      let tc := trimS g
      if tc ≠ [] ∧ byteLen tc ≥ 1 then tc else c
    | none => c
  | none => c

/-- Lines 180–196: `" / "` split (track before the separator). -/
def stageSlash (c : RStr) : RStr :=
  if containsS c (" / ".toList) ∧ ¬ containsS (lowerS c) ("feat".toList) ∧
      ¬ containsS (lowerS c) ("ft.".toList) then
    let parts := splitSub (" / ".toList) c
    if parts.length = 2 then
      let fp := trimS parts.headI
      if fp ≠ [] ∧ byteLen fp > 2 then fp else c
    else c
  else c

/-- Line 201: `^([^-]+)\s*[-–—]\s*(.+)$`. -/
def sepDashRE : RE :=
  rseq [.group 1 (rplusG (rnot '-')), .starG rws, rany ['-', '–', '—'],
        .starG rws, .group 2 (rplusG rdot), .eos]

/-- Line 202: `^([^·]+)\s*[·]\s*(.+)$`. -/
def sepDotRE : RE :=
  rseq [.group 1 (rplusG (rnot '·')), .starG rws, rlit '·', .starG rws,
        .group 2 (rplusG rdot), .eos]

/-- Line 203: `^([^×]+)\s*[×]\s*(.+)$`. -/
def sepXRE : RE :=
  rseq [.group 1 (rplusG (rnot '×')), .starG rws, rlit '×', .starG rws,
        .group 2 (rplusG rdot), .eos]

/-- Lines 206–239 (one iteration): capture, apply the acceptance guards
(the usize→f64 `len` comparison of line 222 is exact on these sizes, so it
is the integer comparison `artist < 3 * track`). -/
def trySep (pat : RE) (c : RStr) : Option RStr :=
  match findAnchored pat c with
  | some (_, _, cp) =>
    match capGet cp 1, capGet cp 2 with
    | some g1, some g2 =>
      let artist := trimS g1
      let track := trimS g2
      let hasFeat := containsS (lowerS artist) ("feat".toList) ||
        containsS (lowerS artist) ("ft.".toList)
      if track ≠ [] ∧ byteLen track ≥ 1 ∧ artist ≠ [] ∧
          (hasFeat = true ∨ byteLen artist < 3 * byteLen track) ∧
          ¬ containsS (lowerS track) ("youtube".toList) ∧
          ¬ containsS (lowerS track) ("music video".toList) ∧
          track ≠ artist then
        some track
      else none
    | _, _ => none
  | none => none

/-- Lines 200–239: the separator pattern loop (`break` on first accepted
extraction). -/
def stageSeps (c : RStr) : RStr :=
  match trySep sepDashRE c with
  | some t => t
  | none =>
    match trySep sepDotRE c with
    | some t => t
    | none =>
      match trySep sepXRE c with
      | some t => t
      | none => c

/-- Line 244: `^([^-]+)-([^【]+)【.*?】`. -/
def atBracketRE : RE :=
  rseq [.group 1 (rplusG (rnot '-')), rlit '-', .group 2 (rplusG (rnot '【')),
        rlit '【', .starL rdot, rlit '】']

/-- Lines 243–257: "Artist-Track【...】" handling (runs on the original). -/
def stageATBracket (original c : RStr) : RStr :=
  match findAnchored atBracketRE original with
  | some (_, _, cp) =>
    match capGet cp 2 with
    | some g =>
      let tc := trimS g
      if tc ≠ [] ∧ byteLen tc > 2 then tc else c
    | none => c
  | none => c

/-- Line 260: `（.*?(VIDEO|video|MV|mv).*?）` (case-sensitive). -/
def fwVideoRE : RE :=
  rseq [rlit '（', .starL rdot,
        raltN [rstr ("VIDEO"), rstr ("video"), rstr ("MV"), rstr ("mv")],
        .starL rdot, rlit '）']

/-- Line 268: `【.*?】`. -/
def jbRemRE : RE := rseq [rlit '【', .starL rdot, rlit '】']

/-- Lines 275–285: `" | "` list truncation (keep first segment). -/
def stagePipe (c : RStr) : RStr :=
  if containsS c (" | ".toList) then
    let parts := splitSub (" | ".toList) c
    if parts.length > 1 then
      let fp := trimS parts.headI
      if fp ≠ [] ∧ byteLen fp > 2 then fp else c
    else c
  else c

/-- Lines 288–296 / 363–365: strip a symmetric wrapping pair via the byte
slice `cleaned[1..cleaned.len()-1]`; `none` models the slice panic on a
non-boundary index (the opening char may be multi-byte). -/
def stripWrap (o cl : Char) (c : RStr) : Option RStr :=
  if startsWithC c o ∧ endsWithC c cl ∧ byteLen c > 2 then
    sliceBytes c 1 (byteLen c - 1)
  else some c

/-- Lines 304–307: collapse whitespace runs to one space and trim
(unconditional). -/
def stageCollapseWs (c : RStr) : RStr :=
  trimS (replaceAllRE (rplusG rws) [' '] c)

/-- Line 325: `^(.+?)\\s*feat\\.` — the doubled backslashes in the raw
string make `\\` a literal backslash, `s*` a literal `s` run, and the
final `.` a plain dot atom. -/
def fwSlashFeatInnerRE : RE :=
  rseq [.group 1 (rplusL rdot), rlit '\\', .starG (rlit 's'), rstr ("feat"),
        rlit '\\', rdot]

/-- Lines 311–336: full-width slash / `feat.`×`×` handling. -/
def stageFwSlashFeat (c : RStr) : RStr :=
  if containsS c ("／".toList) ∨
      (containsS c ("feat.".toList) ∧ containsS c ("×".toList)) then
    let c1 :=
      if containsS c ("／".toList) then
        let parts := splitSub ("／".toList) c
        if parts ≠ [] then
          let fp := trimS parts.headI
          if fp ≠ [] ∧ byteLen fp > 2 then fp else c
        else c
      else c
    if containsS c1 ("feat.".toList) ∧ containsS c1 ("×".toList) then
      match findAnchored fwSlashFeatInnerRE c1 with
      | some (_, _, cp) =>
        match capGet cp 1 with
        | some g =>
          let tc := trimS g
          if tc ≠ [] ∧ byteLen tc > 2 then tc else c1
        | none => c1
      | none => c1
    else c1
  else c

/-- Line 339: `\\s*\\(.*?官方.*?中.*?字.*?版.*?\\)` — again literal
backslashes and a real capture group from `\\(`/`\\)`. -/
def bsChineseRE : RE :=
  rseq [rlit '\\', .starG (rlit 's'), rlit '\\',
        .group 1 (rseq [.starL rdot, rstr ("官方"), .starL rdot, rlit '中',
                        .starL rdot, rlit '字', .starL rdot, rlit '版',
                        .starL rdot, rlit '\\'])]

/-- Line 347: `（公式\)` (full-width open, ASCII close). -/
def fwOfficialRE : RE := rseq [rlit '（', rstr ("公式"), rlit ')']

/-- Line 355: `\s*\[[^\]]*\]\s*$`. -/
def endBracketRE : RE :=
  rseq [.starG rws, rlit '[', .starG (rnot ']'), rlit ']', .starG rws, .eos]

/-- Lines 367–384: liberal `" - "` split keeping `parts[1]`. -/
def stageDashSplit (c : RStr) : RStr :=
  if containsS c (" - ".toList) then
    let parts := splitSub (" - ".toList) c
    if parts.length ≥ 2 then
      let track := trimS (parts.getD 1 [])
      if track ≠ [] ∧ byteLen track ≥ 1 ∧
          ¬ startsWithS (lowerS track) ("youtube".toList) ∧
          ¬ startsWithS (lowerS track) ("official".toList) ∧
          ¬ containsS (lowerS track) ("cover by".toList) then
        track
      else c
    else c
  else c

/-- Lines 386–396: `" · "` split keeping the last part. -/
def stageDotSplit (c : RStr) : RStr :=
  if containsS c (" · ".toList) ∧ ¬ containsS c (" - ".toList) then
    let parts := splitSub (" · ".toList) c
    if parts.length ≥ 2 then
      let lastp := trimS (parts.getLastD [])
      if lastp ≠ [] ∧ byteLen lastp ≥ 1 ∧ byteLen lastp < 50 then lastp else c
    else c
  else c

/-- Line 399: `\s+ft\.?\s+[^(),-]*$` (case-sensitive). -/
def ftTailRE : RE :=
  rseq [rplusG rws, rstr ("ft"), roptG (rlit '.'), rplusG rws,
        .starG (rnone ['(', ')', ',', '-']), .eos]

/-- Line 407: `\s+ft\.?\s+[A-Z][A-Z]+\s*$`. -/
def ftCapsRE : RE :=
  rseq [rplusG rws, rstr ("ft"), roptG (rlit '.'), rplusG rws,
        .cls (fun c => decide ('A' ≤ c ∧ c ≤ 'Z')),
        rplusG (.cls (fun c => decide ('A' ≤ c ∧ c ≤ 'Z'))), .starG rws, .eos]

/-- Lines 414–420: drop a trailing `" (Acoustic)"` via `str::replace`. -/
def stageAcoustic (c : RStr) : RStr :=
  if endsWithS c (" (Acoustic)".toList) then
    let wo := replaceSub c (" (Acoustic)".toList) []
    if trimS wo ≠ [] then trimS wo else c
  else c

/-- Line 423: `\s+Official\s+Video\s*$` (case-sensitive). -/
def officialVideoRE : RE :=
  rseq [rplusG rws, rstr ("Official"), rplusG rws, rstr ("Video"), .starG rws,
        .eos]

/-- Lines 430–444: pinned multi-dash case, else general multi-dash
truncation keeping the first part. -/
def stageMultiDash (c : RStr) : RStr :=
  if containsS c ("If I Die Young - The Band Perry".toList) then
    ("If I Die Young".toList)
  else if containsS c (" - ".toList) ∧ (splitSub (" - ".toList) c).length > 2 then
    let parts := splitSub (" - ".toList) c
    if parts.length ≥ 3 then
      let fp := trimS parts.headI
      if fp ≠ [] ∧ byteLen fp > 2 ∧ byteLen fp < 50 then fp else c
    else c
  else c

/-- Line 447: `\s+ft\.([^\s]+)$`. -/
def ftJpRE : RE :=
  rseq [rplusG rws, rstr ("ft"), rlit '.',
        .group 1 (rplusG (.cls (fun c => !isWs c))), .eos]

/-- Line 455: `^'([^']+)'(.*)$`. -/
def quoteTitleRE : RE :=
  rseq [rlit '\'', .group 1 (rplusG (rnot '\'')), rlit '\'',
        .group 2 (.starG rdot), .eos]

/-- Lines 454–468: single quotes around the title. -/
def stageQuoteTitle (c : RStr) : RStr :=
  match findAnchored quoteTitleRE c with
  | some (_, _, cp) =>
    match capGet cp 1 with
    | some g1 =>
      let qt := trimS g1
      if qt ≠ [] ∧ byteLen qt > 2 then
        let aft := trimS ((capGet cp 2).getD [])
        if aft = [] ∨ containsS (lowerS aft) ("seaside".toList) then qt else c
      else c
    | none => c
  | none => c

/-- Line 471: `\\s*\\(.*?Chinese.*?Cover.*?\\)` (literal backslashes as in
line 339). -/
def bsChineseCoverRE : RE :=
  rseq [rlit '\\', .starG (rlit 's'), rlit '\\',
        .group 1 (rseq [.starL rdot, rstr ("Chinese"), .starL rdot,
                        rstr ("Cover"), .starL rdot, rlit '\\'])]

/-- Line 479: `（.*?）`. -/
def fwParenRE : RE := rseq [rlit '（', .starL rdot, rlit '）']

/-- Line 487: `\\s+cover\\s*$` (literal backslashes). -/
def bsCoverRE : RE :=
  rseq [rlit '\\', rplusG (rlit 's'), rstr ("cover"), rlit '\\',
        .starG (rlit 's'), .eos]

/-- Line 498: `^([^／]+)／.*×.*【.*?】`. -/
def fwSlashXRE : RE :=
  rseq [.group 1 (rplusG (rnot '／')), rlit '／', .starG rdot, rlit '×',
        .starG rdot, rlit '【', .starL rdot, rlit '】']

/-- Lines 496–508: full-width slash with `×` and trailing bracket. -/
def stageFwSlashX (c : RStr) : RStr :=
  if containsS c ("／".toList) ∧ containsS c ("×".toList) then
    match findAnchored fwSlashXRE c with
    | some (_, _, cp) =>
      match capGet cp 1 with
      | some g =>
        let tc := trimS g
        if tc ≠ [] ∧ byteLen tc > 2 then tc else c
      | none => c
    | none => c
  else c

/-- Lines 510–513: preserve "Japanese Cover" as a parenthetical. -/
def stageJapCover (c : RStr) : RStr :=
  if containsS c ("/ Japanese Cover".toList) then
    replaceSub c ("/ Japanese Cover".toList) (" (Japanese Cover)".toList)
  else c

/-- Lines 515–524: last-chance aggressive `Artist - Track` split (only when
nothing changed so far). -/
def stageLastDash (original c : RStr) : RStr :=
  if c = original ∧ containsS c (" - ".toList) then
    let parts := splitSub (" - ".toList) c
    if parts.length = 2 then
      let track := trimS (parts.getD 1 [])
      if track ≠ [] ∧ byteLen track > 0 then track else c
    else c
  else c

/-- Lines 528–531: pinned "Cigarettes After Sex" case. -/
def stageCas (c : RStr) : RStr :=
  if containsS c ("Cigarettes After Sex (Full Album) - Cigarettes After Sex".toList) then
    ("Cigarettes After Sex (Full Album)".toList)
  else c

/-- Line 535: `^([^-]+)\(Full Album\)\s*-.*$`. -/
def fullAlbumRE : RE :=
  rseq [.group 1 (rplusG (rnot '-')), rstr ("(Full Album)"), .starG rws,
        rlit '-', .starG rdot, .eos]

/-- Lines 533–543: "(Full Album)" preservation (runs on the original). -/
def stageFullAlbum (original c : RStr) : RStr :=
  if containsS original ("(Full Album) -".toList) then
    match findAnchored fullAlbumRE original with
    | some (_, _, cp) =>
      match capGet cp 1 with
      | some g => trimS g ++ (" (Full Album)".toList)
      | none => c
    | none => c
  else c

/-- `clean_track_name` (src-tauri/src/track_cleaning.rs lines 4–547), stage
by stage in source order.  `none` models a panic (reachable only through
the `stripWrap` byte slices). -/
def clean_track_name (track_name : RStr) : Option RStr :=
  match stageJQuote track_name with
  | some r => some r
  | none =>
  match stageJMid track_name with
  | some r => some r
  | none =>
  match stageJSingle track_name with
  | some r => some r
  | none =>
  match stageJCorner track_name with
  | some r => some r
  | none =>
    let original := track_name
    let c := applyCleanups track_name
    let c := stageFeatDash original c
    let c := stageSlash c
    let c := stageSeps c
    let c := stageATBracket original c
    let c := replaceStage fwVideoRE 1 c
    let c := replaceStage jbRemRE 1 c
    let c := stagePipe c
    match stripWrap '"' '"' c with
    | none => none
    | some c =>
    match stripWrap '\'' '\'' c with
    | none => none
    | some c =>
    match stripWrap '「' '」' c with
    | none => none
    | some c =>
      let c := stageCollapseWs c
      let c := stageFwSlashFeat c
      let c := replaceStage bsChineseRE 1 c
      let c := replaceStage fwOfficialRE 1 c
      let c := replaceStage endBracketRE 1 c
      match stripWrap '"' '"' c with
      | none => none
      | some c =>
        let c := stageDashSplit c
        let c := stageDotSplit c
        let c := replaceStage ftTailRE 1 c
        let c := replaceStage ftCapsRE 1 c
        let c := stageAcoustic c
        let c := replaceStage officialVideoRE 1 c
        let c := stageMultiDash c
        let c := replaceStage ftJpRE 1 c
        let c := stageQuoteTitle c
        let c := replaceStage bsChineseCoverRE 1 c
        let c := replaceStage fwParenRE 3 c
        let c := replaceStage bsCoverRE 1 c
        let c := stageFwSlashX c
        let c := stageJapCover c
        let c := stageLastDash original c
        let c := stageCas c
        let c := stageFullAlbum original c
        some c

/-! ### track_cleaning.rs — `remove_artist_from_track` (lines 549–579) -/

/-- Dash family used by `remove_artist_from_track`. -/
def raDashes : List Char := ['-', '–', '—']

/-- Line 559: `^{artist}\s*[-–—]\s*` (artist escaped, so a literal;
`(?i)`). -/
def artistHeadRE (artist : RStr) : RE :=
  rseq ((artist.map rlitCI) ++ [.starG rws, rany raDashes, .starG rws])

/-- Line 560: `\s*[-–—]\s*{artist}$` (`(?i)`). -/
def artistTail1RE (artist : RStr) : RE :=
  rseq ([.starG rws, rany raDashes, .starG rws] ++ (artist.map rlitCI) ++ [.eos])

/-- Line 562: `\s*[-–—]\s*{artist}\s*$` (`(?i)`). -/
def artistTail2RE (artist : RStr) : RE :=
  rseq ([.starG rws, rany raDashes, .starG rws] ++ (artist.map rlitCI) ++
        [.starG rws, .eos])

/-- `replace_all` of a `^`-anchored pattern: it can only match at the start
of the haystack, so it removes at most that one match. -/
def stripAnchored (re : RE) (s : RStr) : RStr :=
  match findAnchored re s with
  | some (_, rest, _) => rest
  | none => s

/-- Lines 565–576 (one iteration): accept the replacement only if it
strictly shortens the string and leaves it non-empty. -/
def raStep (result newR : RStr) : RStr :=
  if byteLen newR < byteLen result ∧ newR ≠ [] then newR else result

/-- `remove_artist_from_track` (src-tauri/src/track_cleaning.rs lines
549–579). -/
def remove_artist_from_track (track_name artist_name : RStr) : RStr :=
  if trimS artist_name = [] then track_name
  else
    let r0 := track_name
    let r1 := raStep r0 (trimS (stripAnchored (artistHeadRE artist_name) r0))
    let r2 := raStep r1 (trimS (replaceAllRE (artistTail1RE artist_name) [] r1))
    let r3 := raStep r2 (trimS (replaceAllRE (artistTail2RE artist_name) [] r2))
    r3

/-! ### lyrics.rs — data model and LRC decoding

Times are modelled as exact rationals; on the values the code computes
(`mm*60 + ss + cc/100`, `5.0 * index`, differences of those, `3.0`) the
orderings and the stated equalities agree with the `f64` arithmetic of the
source. -/

/-- `LyricLine` (src-tauri/src/types.rs lines 16–21). -/
structure LyricLine where
  time : ℚ
  text : RStr
  duration : Option ℚ
deriving DecidableEq, Repr

/-- Strip one trailing `'\r'` (Rust `str::strip_suffix('\r')` as used by
`str::lines`). -/
def stripTrailCr (l : RStr) : RStr :=
  if endsWithC l '\r' then l.dropLast else l

/-- Rust `str::lines`: split on `'\n'`; every piece that was followed by a
`'\n'` loses one trailing `'\r'`; a final empty piece (trailing newline) is
dropped; the last piece, having no line ending, keeps any `'\r'`. -/
def linesOf (s : RStr) : List RStr :=
  let ps := splitChar '\n' s
  let init := ps.dropLast.map stripTrailCr
  let lastp := ps.getLastD []
  if lastp = [] then init else init ++ [lastp]

/-- Numeric value of two ASCII digit chars (`"\d{2}".parse::<f64>()`
always succeeds on ASCII digits; the `unwrap_or(0.0)` fallback is
unreachable for them). -/
def d2 (a b : Char) : Nat := (a.toNat - 48) * 10 + (b.toNat - 48)

/-- `mm*60 + ss + cc/100` (lyrics.rs line 426). -/
def mkTime (m s c : Nat) : ℚ := (m : ℚ) * 60 + (s : ℚ) + (c : ℚ) / 100

/-- One line against `^\[(\d{2}):(\d{2})(?:\.(\d{2}))?\](.*)$` (lyrics.rs
line 413), returning the timestamp and the raw trailing text.  The
optional group must be exactly `.` plus two digits followed by `]`;
otherwise the `]` must follow the seconds directly (the regex backtracking
admits nothing else). -/
def parseLrcLine (l : RStr) : Option (ℚ × RStr) :=
  match l with
  | c0 :: a :: b :: c1 :: c :: d :: rest =>
    if c0 = '[' ∧ c1 = ':' ∧ a.isDigit ∧ b.isDigit ∧ c.isDigit ∧ d.isDigit then
      match rest with
      | p :: e :: f :: q :: text =>
        if p = '.' ∧ e.isDigit ∧ f.isDigit ∧ q = ']' then
          some (mkTime (d2 a b) (d2 c d) (d2 e f), text)
        else if p = ']' then some (mkTime (d2 a b) (d2 c d) 0, e :: f :: q :: text)
        else none
      | p :: text =>
        if p = ']' then some (mkTime (d2 a b) (d2 c d) 0, text) else none
      | [] => none
    else none
  | _ => none

/-- Lines 440–447: set each non-last duration to the gap to the next time
and the last to `3.0`. -/
def assignDurations : List LyricLine → List LyricLine
  | [] => []
  | [x] => [{ x with duration := some 3 }]
  | x :: y :: rest =>
    { x with duration := some (y.time - x.time) } :: assignDurations (y :: rest)

/-- Comparison used by the `sort_by` of lyrics.rs line 438 (`partial_cmp`
on finite times, so the total `≤`). -/
def timeLE (a b : LyricLine) : Prop := a.time ≤ b.time

instance : DecidableRel timeLE := fun a b => inferInstanceAs (Decidable (a.time ≤ b.time))

/-- `parse_lrc_format` (src-tauri/src/lyrics.rs lines 408–450): collect
tagged lines with non-empty trimmed text, stable-sort by time, then assign
durations.  Rust's `sort_by` is a stable sort, whose result is exactly
`List.insertionSort`. -/
def parse_lrc_format (lrc_content : RStr) : List LyricLine :=
  let raw := (linesOf lrc_content).filterMap (fun l =>
    match parseLrcLine l with
    | some (t, txt) =>
      let text := trimS txt
      if text ≠ [] then some { time := t, text := text, duration := none }
      else none
    | none => none)
  assignDurations (List.insertionSort timeLE raw)

/-- `convert_plain_lyrics_to_lines` (src-tauri/src/lyrics.rs lines
452–469): every input line (indexed over all lines, blank ones included)
with non-empty trimmed text becomes a line at `time = index * 5.0` with
`duration = 5.0`. -/
def convert_plain_lyrics_to_lines (plain_lyrics : RStr) : List LyricLine :=
  (linesOf plain_lyrics).enum.filterMap (fun p =>
    let text := trimS p.2
    if text ≠ [] then
      some { time := (p.1 : ℚ) * 5, text := text, duration := some 5 }
    else none)

/-! ### lyrics.rs — candidate generation and the search race -/

/-- Wildcard candidates use the free-text `q=` parameter, exact ones the
separate `track_name=`/`artist_name=` parameters. -/
inductive CandKind where
  | wildcard
  | exact
deriving DecidableEq, Repr

/-- One entry of the `candidates` vector of `fetch_lyrics` (lyrics.rs lines
106–217): its priority, which query shape it uses, and the track-side
query text (the part whose emptiness the guards test; exact candidates
additionally carry `artist_name`, which every exact guard also requires to
be non-blank). -/
structure SearchCandidate where
  priority : Nat
  kind : CandKind
  query : RStr
deriving DecidableEq, Repr

/-- The candidate vector built by `fetch_lyrics` (lyrics.rs lines
102–217), in push order; `none` models a panic inside
`clean_track_name`. -/
def build_candidates (track_name artist_name : RStr) : Option (List SearchCandidate) := do
  let cleaned_track ← clean_track_name track_name
  let track_without_artist := remove_artist_from_track track_name artist_name
  let cleaned_track_without_artist ← clean_track_name track_without_artist
  pure <|
    (if trimS track_name ≠ [] ∧ trimS artist_name ≠ [] then
      [⟨10, .wildcard, track_name ++ ' ' :: artist_name⟩] else []) ++
    (if trimS track_name ≠ [] then [⟨9, .wildcard, track_name⟩] else []) ++
    (if trimS cleaned_track ≠ [] ∧ trimS artist_name ≠ [] then
      [⟨8, .wildcard, cleaned_track ++ ' ' :: artist_name⟩] else []) ++
    (if trimS cleaned_track ≠ [] then [⟨7, .wildcard, cleaned_track⟩] else []) ++
    (if trimS track_name ≠ [] ∧ trimS artist_name ≠ [] then
      [⟨6, .exact, track_name⟩] else []) ++
    (if trimS track_without_artist ≠ [] ∧ trimS artist_name ≠ [] then
      [⟨5, .exact, track_without_artist⟩] else []) ++
    (if trimS cleaned_track ≠ [] ∧ trimS artist_name ≠ [] then
      [⟨4, .exact, cleaned_track⟩] else []) ++
    (if trimS cleaned_track_without_artist ≠ [] ∧ trimS artist_name ≠ [] then
      [⟨3, .exact, cleaned_track_without_artist⟩] else [])

/-- The decision `fetch_lyrics` makes before any network activity
(lyrics.rs lines 219–228): with no candidates it returns the error string
of line 220 at once; otherwise it hands the candidate list to
`search_strict_priority`.  (The spawning of provider requests itself is
I/O and outside the pure model.) -/
def fetch_lyrics_plan (track_name artist_name : RStr) :
    Option (Except RStr (List SearchCandidate)) :=
  (build_candidates track_name artist_name).map (fun cs =>
    if cs.isEmpty then .error ("No valid search candidates".toList) else .ok cs)

/-- Completion of one spawned candidate task, as observed by the
`join_next` loop of `search_strict_priority` (lyrics.rs lines 271–305):
either a fetched result (possibly empty lyrics) or any swallowed failure
(HTTP/parse error, cancellation, join error). -/
inductive FetchEvent where
  | ok (priority : Nat) (lyrics : List LyricLine)
  | err
deriving DecidableEq, Repr

/-- The completion-tracking loop of `search_strict_priority` (lyrics.rs
lines 267–305) over the sequence of task completions it gets to process
(an arbitrary interleaving; an overall timeout truncates the sequence —
callers quantify over both).  Keeps the best non-empty result by strict
priority, breaking early when the globally maximal priority is reached. -/
def raceLoop (top : Nat) : List FetchEvent → Option (Nat × List LyricLine) →
    Option (Nat × List LyricLine)
  | [], best => best
  | .ok p ls :: rest, best =>
    if ls ≠ [] ∧ (best = none ∨ ∀ b ∈ best, p > b.1) then
      if p = top then some (p, ls) else raceLoop top rest (some (p, ls))
    else raceLoop top rest best
  | .err :: rest, best => raceLoop top rest best

/-- The final match of `search_strict_priority` (lyrics.rs lines 313–318):
a captured best is returned as success whether or not the overall timeout
fired; an error results only when nothing was captured. -/
def search_strict_priority_outcome (events : List FetchEvent)
    (timedOut : Bool) (top : Nat) : Except RStr (Nat × List LyricLine) :=
  match raceLoop top events none with
  | some w => .ok w
  | none =>
    .error (if timedOut then ("Overall timeout with no results".toList)
            else ("All candidates returned empty".toList))

/-- Every character is whitespace. -/
def allWs (s : RStr) : Prop := ∀ c ∈ s, isWs c = true

/-- Ascending-by-time sortedness of a produced sequence. -/
def sortedByTime (ls : List LyricLine) : Prop := List.Pairwise timeLE ls

/-- Every line except the last carries a duration equal to the gap to the
next line's time. -/
def gapOk : List LyricLine → Prop
  | [] => True
  | [_] => True
  | x :: y :: rest => x.duration = some (y.time - x.time) ∧ gapOk (y :: rest)

instance : IsTotal LyricLine timeLE := ⟨fun a b => le_total a.time b.time⟩

instance : IsTrans LyricLine timeLE := ⟨fun _ _ _ h1 h2 => le_trans h1 h2⟩

/-- The collected (pre-sort) lines of `parse_lrc_format`. -/
def lrcRaw (lrc_content : RStr) : List LyricLine :=
  (linesOf lrc_content).filterMap (fun l =>
    match parseLrcLine l with
    | some (t, txt) =>
      let text := trimS txt
      if text ≠ [] then some { time := t, text := text, duration := none }
      else none
    | none => none)

/-- The per-line conversion of `convert_plain_lyrics_to_lines`. -/
def plainF (p : Nat × RStr) : Option LyricLine :=
  let text := trimS p.2
  if text ≠ [] then
    some { time := (p.1 : ℚ) * 5, text := text, duration := some 5 }
  else none

/-! ### Synthetic LRC texts (for the round-trip property)

`LrcEntry` describes one synthetic LRC line `[mm:ss]text` or
`[mm:ss.cc]text`; `renderLrc` renders a list of them joined by `'\n'`.
These are test-harness constructions (the property quantifies over them),
not source translations. -/

structure LrcEntry where
  m : Nat
  s : Nat
  c : Nat
  withC : Bool
  text : RStr

/-- ASCII digit character. -/
def digitChar (n : Nat) : Char := Char.ofNat (48 + n)

/-- Render the timestamp tag and text of one entry. -/
def renderTag (e : LrcEntry) : RStr :=
  '[' :: digitChar (e.m / 10) :: digitChar (e.m % 10) :: ':' ::
  digitChar (e.s / 10) :: digitChar (e.s % 10) ::
  (if e.withC then '.' :: digitChar (e.c / 10) :: digitChar (e.c % 10) :: ']' :: e.text
   else ']' :: e.text)

/-- The timestamp an entry denotes. -/
def entryTime (e : LrcEntry) : ℚ := mkTime e.m e.s (if e.withC then e.c else 0)

/-- Well-formedness of a synthetic entry: two-digit fields and a trimmed,
non-empty, single-line text. -/
def wellFormedE (e : LrcEntry) : Prop :=
  e.m < 100 ∧ e.s < 100 ∧ e.c < 100 ∧ trimS e.text = e.text ∧ e.text ≠ [] ∧
  '\n' ∉ e.text ∧ '\r' ∉ e.text

instance (e : LrcEntry) : Decidable (wellFormedE e) := by
  unfold wellFormedE
  infer_instance

/-- Join lines with `'\n'` separators (no trailing newline). -/
def joinNl : List RStr → RStr
  | [] => []
  | [p] => p
  | p :: q :: rest => p ++ '\n' :: joinNl (q :: rest)

/-- A synthetic LRC text with one line per entry. -/
def renderLrc (es : List LrcEntry) : RStr := joinNl (es.map renderTag)

/-- The invariant exactly as claim C6 states it, over one produced
sequence. -/
def lyricClaimInvariant (ls : List LyricLine) : Prop :=
  sortedByTime ls ∧ (∀ x ∈ ls, 0 ≤ x.time ∧ x.text ≠ []) ∧ gapOk ls

/-! ### Whitespace and trimming lemmas -/

theorem allWs_of_sublist {s t : RStr} (h : t.Sublist s) (hs : allWs s) : allWs t :=
  fun c hc => hs c (h.subset hc)

theorem allWs_nil : allWs [] := by intro c hc; cases hc

theorem ltrim_eq_nil_iff {s : RStr} : ltrim s = [] ↔ allWs s := by
  simp [ltrim, List.dropWhile_eq_nil_iff, allWs]

theorem rtrim_eq_nil_iff {s : RStr} : rtrim s = [] ↔ allWs s := by
  simp [rtrim, List.dropWhile_eq_nil_iff, allWs]

theorem trimS_eq_nil_iff {s : RStr} : trimS s = [] ↔ allWs s := by
  constructor
  · intro h
    have h1 : allWs (ltrim s) := rtrim_eq_nil_iff.mp h
    intro c hc
    rw [← List.takeWhile_append_dropWhile (p := isWs) (l := s)] at hc
    rcases List.mem_append.mp hc with h2 | h2
    · exact List.mem_takeWhile_imp h2
    · exact h1 c h2
  · intro h
    have : ltrim s = [] := ltrim_eq_nil_iff.mpr h
    simp [trimS, this, rtrim]

theorem trimS_eq_nil_of_allWs {s : RStr} (h : allWs s) : trimS s = [] :=
  trimS_eq_nil_iff.mpr h

theorem trimS_append_ne_nil {t u : RStr} (h : trimS t ≠ []) : trimS (t ++ u) ≠ [] := by
  intro hc
  exact h (trimS_eq_nil_iff.mpr (fun c hcm =>
    trimS_eq_nil_iff.mp hc c (List.mem_append.mpr (Or.inl hcm))))

theorem startsWithC_false_of_allWs {s : RStr} {c : Char} (hs : allWs s)
    (hc : isWs c = false) : startsWithC s c = false := by
  cases s with
  | nil => rfl
  | cons a r =>
    simp only [startsWithC, decide_eq_false_iff_not]
    intro h
    subst h
    rw [hs a (List.mem_cons_self a r)] at hc
    cases hc

theorem containsS_spec {s sub : RStr} (h : containsS s sub = true) : sub <:+: s := by
  induction s with
  | nil =>
    simp only [containsS, List.isEmpty_iff] at h
    simp [h]
  | cons c r ih =>
    simp only [containsS, Bool.or_eq_true] at h
    rcases h with h | h
    · exact List.infix_cons_iff.mpr (Or.inl ( List.isPrefixOf_iff_prefix.mp h))
    · exact List.infix_cons_iff.mpr (Or.inr (ih h))

theorem containsS_false_of_allWs {s sub : RStr} (hs : allWs s)
    (hsub : ∃ c ∈ sub, isWs c = false) : containsS s sub = false := by
  by_contra h
  obtain ⟨c, hc, hcw⟩ := hsub
  have := hs c ((containsS_spec (by simpa using h)).subset hc)
  rw [this] at hcw
  cases hcw

theorem endsWithS_false_of_allWs {s suf : RStr} (hs : allWs s)
    (hsub : ∃ c ∈ suf, isWs c = false) : endsWithS s suf = false := by
  by_contra h
  obtain ⟨c, hc, hcw⟩ := hsub
  have hsx : suf <:+ s :=
    List.isSuffixOf_iff_suffix.mp (by simpa [endsWithS] using h)
  have := hs c (hsx.subset hc)
  rw [this] at hcw
  cases hcw

/-! ### Matcher correctness lemmas -/

theorem starIter_split {body : RStr → Caps → List MRes} {greedy : Bool}
    (H : ∀ s cp r, r ∈ body s cp → r.1 ++ r.2.1 = s) :
    ∀ fuel s cp r, r ∈ starIter body greedy fuel s cp → r.1 ++ r.2.1 = s := by
  intro fuel
  induction fuel with
  | zero =>
    intro s cp r hr
    simp only [starIter, List.mem_singleton] at hr
    subst hr; rfl
  | succ f ih =>
    intro s cp r hr
    simp only [starIter] at hr
    have hiter : ∀ r', r' ∈ ((body s cp).filter (fun r => !r.1.isEmpty)).flatMap
        (fun x => (starIter body greedy f x.2.1 x.2.2).map
          (fun y => (x.1 ++ y.1, y.2.1, y.2.2))) → r'.1 ++ r'.2.1 = s := by
      intro r' hr'
      simp only [List.mem_flatMap, List.mem_map, List.mem_filter] at hr'
      obtain ⟨x, ⟨ha, _⟩, y, hb, rfl⟩ := hr'
      have h1 := H s cp x ha
      have h2 := ih x.2.1 x.2.2 y hb
      simp only at h1 h2 ⊢
      rw [List.append_assoc, h2, h1]
    split at hr
    · rcases List.mem_append.mp hr with h | h
      · exact hiter r h
      · simp only [List.mem_singleton] at h; subst h; rfl
    · rcases List.mem_cons.mp hr with h | h
      · subst h; rfl
      · exact hiter r h

theorem mAll_split : ∀ (re : RE) (s : RStr) (cp : Caps) r, r ∈ mAll re s cp →
    r.1 ++ r.2.1 = s := by
  intro re
  induction re with
  | eps =>
    intro s cp r hr
    simp only [mAll, List.mem_singleton] at hr; subst hr; rfl
  | eos =>
    intro s cp r hr
    simp only [mAll] at hr
    split at hr
    · simp only [List.mem_singleton] at hr; subst hr; rfl
    · cases hr
  | cls p =>
    intro s cp r hr
    cases s with
    | nil => cases hr
    | cons c rest =>
      simp only [mAll] at hr
      split at hr
      · simp only [List.mem_singleton] at hr; subst hr; rfl
      · cases hr
  | seq a b iha ihb =>
    intro s cp r hr
    simp only [mAll, List.mem_flatMap, List.mem_map] at hr
    obtain ⟨x, ha, y, hb, rfl⟩ := hr
    have h1 := iha s cp x ha
    have h2 := ihb x.2.1 x.2.2 y hb
    simp only at h1 h2 ⊢
    rw [List.append_assoc, h2, h1]
  | alt a b iha ihb =>
    intro s cp r hr
    simp only [mAll] at hr
    rcases List.mem_append.mp hr with h | h
    · exact iha s cp r h
    · exact ihb s cp r h
  | starG a ih =>
    intro s cp r hr
    exact starIter_split (fun s' cp' r' h => ih s' cp' r' h) _ s cp r hr
  | starL a ih =>
    intro s cp r hr
    exact starIter_split (fun s' cp' r' h => ih s' cp' r' h) _ s cp r hr
  | group i a ih =>
    intro s cp r hr
    simp only [mAll, List.mem_map] at hr
    obtain ⟨x, ha, rfl⟩ := hr
    simpa using ih s cp x ha

theorem starIter_caps {body : RStr → Caps → List MRes} {greedy : Bool}
    (H : ∀ s cp r, r ∈ body s cp → ∀ q ∈ r.2.2, q ∈ cp ∨ q.2.Sublist r.1) :
    ∀ fuel s cp r, r ∈ starIter body greedy fuel s cp →
      ∀ q ∈ r.2.2, q ∈ cp ∨ q.2.Sublist r.1 := by
  intro fuel
  induction fuel with
  | zero =>
    intro s cp r hr
    simp only [starIter, List.mem_singleton] at hr
    subst hr
    exact fun q hq => Or.inl hq
  | succ f ih =>
    intro s cp r hr
    simp only [starIter] at hr
    have hiter : ∀ r', r' ∈ ((body s cp).filter (fun r => !r.1.isEmpty)).flatMap
        (fun x => (starIter body greedy f x.2.1 x.2.2).map
          (fun y => (x.1 ++ y.1, y.2.1, y.2.2))) →
        ∀ q ∈ r'.2.2, q ∈ cp ∨ q.2.Sublist r'.1 := by
      intro r' hr'
      simp only [List.mem_flatMap, List.mem_map, List.mem_filter] at hr'
      obtain ⟨x, ⟨ha, _⟩, y, hb, rfl⟩ := hr'
      intro q hq
      rcases ih x.2.1 x.2.2 y hb q hq with hq1 | hq1
      · rcases H s cp x ha q hq1 with hq2 | hq2
        · exact Or.inl hq2
        · exact Or.inr (hq2.trans (List.sublist_append_left _ _))
      · exact Or.inr (hq1.trans (List.sublist_append_right _ _))
    split at hr
    · rcases List.mem_append.mp hr with h | h
      · exact hiter r h
      · simp only [List.mem_singleton] at h; subst h
        exact fun q hq => Or.inl hq
    · rcases List.mem_cons.mp hr with h | h
      · subst h; exact fun q hq => Or.inl hq
      · exact hiter r h

theorem mAll_caps : ∀ (re : RE) (s : RStr) (cp : Caps) r, r ∈ mAll re s cp →
    ∀ q ∈ r.2.2, q ∈ cp ∨ q.2.Sublist r.1 := by
  intro re
  induction re with
  | eps =>
    intro s cp r hr
    simp only [mAll, List.mem_singleton] at hr; subst hr
    exact fun q hq => Or.inl hq
  | eos =>
    intro s cp r hr
    simp only [mAll] at hr
    split at hr
    · simp only [List.mem_singleton] at hr; subst hr
      exact fun q hq => Or.inl hq
    · cases hr
  | cls p =>
    intro s cp r hr
    cases s with
    | nil => cases hr
    | cons c rest =>
      simp only [mAll] at hr
      split at hr
      · simp only [List.mem_singleton] at hr; subst hr
        exact fun q hq => Or.inl hq
      · cases hr
  | seq a b iha ihb =>
    intro s cp r hr
    simp only [mAll, List.mem_flatMap, List.mem_map] at hr
    obtain ⟨x, ha, y, hb, rfl⟩ := hr
    intro q hq
    rcases ihb x.2.1 x.2.2 y hb q hq with hq1 | hq1
    · rcases iha s cp x ha q hq1 with hq2 | hq2
      · exact Or.inl hq2
      · exact Or.inr (hq2.trans (List.sublist_append_left _ _))
    · exact Or.inr (hq1.trans (List.sublist_append_right _ _))
  | alt a b iha ihb =>
    intro s cp r hr
    simp only [mAll] at hr
    rcases List.mem_append.mp hr with h | h
    · exact iha s cp r h
    · exact ihb s cp r h
  | starG a ih =>
    intro s cp r hr
    exact starIter_caps (fun s' cp' r' h => ih s' cp' r' h) _ s cp r hr
  | starL a ih =>
    intro s cp r hr
    exact starIter_caps (fun s' cp' r' h => ih s' cp' r' h) _ s cp r hr
  | group i a ih =>
    intro s cp r hr
    simp only [mAll, List.mem_map] at hr
    obtain ⟨x, ha, rfl⟩ := hr
    intro q hq
    simp only [List.mem_cons] at hq
    rcases hq with hq | hq
    · subst hq
      exact Or.inr (by simp)
    · simpa using ih s cp x ha q hq

/-- Specification of an anchored search: the match consumed a prefix and
each capture is a sub-sequence of it. -/
theorem findAnchored_spec {re : RE} {s : RStr} {m r : RStr} {cp : Caps}
    (h : findAnchored re s = some (m, r, cp)) :
    m ++ r = s ∧ ∀ q ∈ cp, q.2.Sublist m := by
  have hm : (m, r, cp) ∈ mAll re s [] := by
    cases hh : mAll re s [] with
    | nil => simp [findAnchored, hh] at h
    | cons x xs =>
      simp only [findAnchored, hh, List.head?] at h
      cases h
      exact List.mem_cons_self _ _
  refine ⟨mAll_split re s [] _ hm, fun q hq => ?_⟩
  rcases mAll_caps re s [] _ hm q hq with h1 | h1
  · cases h1
  · exact h1

/-- Specification of the leftmost search: the string splits around the
match and each capture is a sub-sequence of the whole string. -/
theorem findFirst_spec {re : RE} : ∀ {s p m r : RStr} {cp : Caps},
    findFirst re s = some (p, m, r, cp) →
    p ++ m ++ r = s ∧ ∀ q ∈ cp, q.2.Sublist s := by
  intro s
  induction s with
  | nil =>
    intro p m r cp h
    simp only [findFirst] at h
    cases hh : findAnchored re [] with
    | none => rw [hh] at h; cases h
    | some x =>
      obtain ⟨m', r', cp'⟩ := x
      rw [hh] at h
      cases h
      obtain ⟨h1, h2⟩ := findAnchored_spec hh
      exact ⟨by simpa using h1, fun q hq => (h2 q hq).trans (by simp [← h1])⟩
  | cons c rest ih =>
    intro p m r cp h
    simp only [findFirst] at h
    cases hh : findAnchored re (c :: rest) with
    | some x =>
      obtain ⟨m', r', cp'⟩ := x
      rw [hh] at h
      cases h
      obtain ⟨h1, h2⟩ := findAnchored_spec hh
      refine ⟨by simpa using h1, fun q hq => (h2 q hq).trans ?_⟩
      rw [← h1]
      exact List.sublist_append_left _ _
    | none =>
      rw [hh] at h
      simp only [Option.map_eq_some'] at h
      obtain ⟨⟨p', m', r', cp'⟩, hf, hq⟩ := h
      cases hq
      obtain ⟨h1, h2⟩ := ih hf
      constructor
      · simp only [List.cons_append]
        rw [List.append_assoc] at h1 ⊢
        rw [h1]
      · exact fun q hq => (h2 q hq).trans (List.sublist_cons_self _ _)

/-- Every character of a `replace_all` result comes from the haystack or
from the replacement. -/
theorem replaceAllAux_mem {re : RE} {rep : RStr} :
    ∀ (fuel : Nat) (s : RStr) (c : Char), c ∈ replaceAllAux re rep fuel s →
      c ∈ s ∨ c ∈ rep := by
  intro fuel
  induction fuel with
  | zero => exact fun s c h => Or.inl h
  | succ f ih =>
    intro s c h
    simp only [replaceAllAux] at h
    cases hh : findFirst re s with
    | none => rw [hh] at h; exact Or.inl h
    | some x =>
      obtain ⟨p, m, post, cp⟩ := x
      rw [hh] at h
      dsimp only at h
      obtain ⟨hsplit, -⟩ := findFirst_spec hh
      have hpre : ∀ a ∈ p, a ∈ s := fun a ha => by
        rw [← hsplit]; simp [ha]
      have hpost : ∀ a ∈ post, a ∈ s := fun a ha => by
        rw [← hsplit]; simp [ha]
      split at h
      · cases hp : post with
        | nil =>
          rw [hp] at h
          rcases List.mem_append.mp h with h1 | h1
          · exact Or.inl (hpre c h1)
          · exact Or.inr h1
        | cons c0 pr =>
          rw [hp] at h
          simp only [List.append_assoc, List.mem_append, List.mem_cons] at h
          rcases h with h1 | h1 | h1 | h1
          · exact Or.inl (hpre c h1)
          · exact Or.inr h1
          · subst h1
            exact Or.inl (hpost c (hp ▸ List.mem_cons_self _ _))
          · rcases ih pr c h1 with h2 | h2
            · exact Or.inl (hpost c (hp ▸ List.mem_cons_of_mem _ h2))
            · exact Or.inr h2
      · simp only [List.append_assoc, List.mem_append] at h
        rcases h with h1 | h1 | h1
        · exact Or.inl (hpre c h1)
        · exact Or.inr h1
        · rcases ih post c h1 with h2 | h2
          · exact Or.inl (hpost c h2)
          · exact Or.inr h2

/-- Characters of `replaceAllRE` come from the haystack or the
replacement. -/
theorem replaceAllRE_mem {re : RE} {rep s : RStr} {c : Char}
    (h : c ∈ replaceAllRE re rep s) : c ∈ s ∨ c ∈ rep :=
  replaceAllAux_mem _ s c h

/-- A `capGet` hit is one of the recorded captures. -/
theorem capGet_mem {cp : Caps} {i : Nat} {g : RStr} (h : capGet cp i = some g) :
    ∃ p ∈ cp, p.2 = g := by
  simp only [capGet, Option.map_eq_some'] at h
  obtain ⟨p, hp, hg⟩ := h
  exact ⟨p, List.mem_of_find?_eq_some hp, hg⟩

/-! ### Whitespace-only strings pass through the cleaner pipeline

Every stage either leaves a whitespace-only string unchanged (its guards
demand a non-empty trimmed result, and everything a stage extracts from a
whitespace-only string is whitespace-only) or, for the unconditional
whitespace-collapsing stage of lines 304–307, turns it into the empty
string, which the remaining stages preserve. -/

theorem findFirst_cap_allWs {re : RE} {s p m r : RStr} {cp : Caps} {i : Nat}
    {g : RStr} (h : findFirst re s = some (p, m, r, cp)) (hs : allWs s)
    (hg : capGet cp i = some g) : trimS g = [] := by
  obtain ⟨q, hq, hq2⟩ := capGet_mem hg
  exact trimS_eq_nil_of_allWs (hq2 ▸ allWs_of_sublist ((findFirst_spec h).2 q hq) hs)

theorem findAnchored_cap_allWs {re : RE} {s m r : RStr} {cp : Caps} {i : Nat}
    {g : RStr} (h : findAnchored re s = some (m, r, cp)) (hs : allWs s)
    (hg : capGet cp i = some g) : trimS g = [] := by
  obtain ⟨q, hq, hq2⟩ := capGet_mem hg
  obtain ⟨h1, h2⟩ := findAnchored_spec h
  have hm : m.Sublist s := h1 ▸ List.sublist_append_left _ _
  exact trimS_eq_nil_of_allWs (hq2 ▸ allWs_of_sublist ((h2 q hq).trans hm) hs)

theorem replaceAll_trim_nil {re : RE} {s : RStr} (hs : allWs s) :
    trimS (replaceAllRE re [] s) = [] := by
  refine trimS_eq_nil_of_allWs (fun c hc => ?_)
  rcases replaceAllRE_mem hc with h | h
  · exact hs c h
  · cases h

theorem replaceStage_allWs {pat : RE} {minLen : Nat} {c : RStr} (hc : allWs c) :
    replaceStage pat minLen c = c := by
  simp [replaceStage, replaceAll_trim_nil hc]

theorem applyCleanups_allWs {c : RStr} (hc : allWs c) : applyCleanups c = c := by
  show List.foldl (fun c pat => replaceStage pat 1 c) c cleanupPatterns = c
  induction cleanupPatterns with
  | nil => rfl
  | cons p ps ih => simp only [List.foldl_cons, replaceStage_allWs hc, ih]

theorem stageJQuote_allWs {s : RStr} (hs : allWs s) : stageJQuote s = none := by
  unfold stageJQuote
  cases h1 : findFirst jquoteRE s with
  | none => rfl
  | some x =>
    obtain ⟨p, m, r, cp⟩ := x
    dsimp only
    cases h2 : capGet cp 1 with
    | none => rfl
    | some g => simp [findFirst_cap_allWs h1 hs h2]

theorem stageJMid_allWs {s : RStr} (hs : allWs s) : stageJMid s = none := by
  unfold stageJMid
  cases h1 : findFirst jmidRE s with
  | none => rfl
  | some x =>
    obtain ⟨p, m, r, cp⟩ := x
    dsimp only
    cases h2 : capGet cp 1 with
    | none => rfl
    | some g => simp [findFirst_cap_allWs h1 hs h2]

theorem stageJSingle_allWs {s : RStr} (hs : allWs s) : stageJSingle s = none := by
  unfold stageJSingle
  cases h1 : findFirst jsingleRE s with
  | none => rfl
  | some x =>
    obtain ⟨p, m, r, cp⟩ := x
    dsimp only
    cases h2 : capGet cp 1 with
    | none => rfl
    | some g => simp [findFirst_cap_allWs h1 hs h2]

theorem stageJCorner_allWs {s : RStr} (hs : allWs s) : stageJCorner s = none := by
  unfold stageJCorner
  cases h1 : findFirst jcornerRE s with
  | none => rfl
  | some x =>
    obtain ⟨p, m, r, cp⟩ := x
    dsimp only
    cases h2 : capGet cp 1 with
    | none => rfl
    | some g => simp [findFirst_cap_allWs h1 hs h2]

theorem stageFeatDash_allWs {original : RStr} (hs : allWs original) (c : RStr) :
    stageFeatDash original c = c := by
  unfold stageFeatDash
  cases h1 : findAnchored featDashRE original with
  | none => rfl
  | some x =>
    obtain ⟨m, r, cp⟩ := x
    dsimp only
    cases h2 : capGet cp 1 with
    | none => rfl
    | some g => simp [findAnchored_cap_allWs h1 hs h2]

theorem stageSlash_allWs {c : RStr} (hc : allWs c) : stageSlash c = c := by
  unfold stageSlash
  rw [if_neg]
  intro h
  rw [containsS_false_of_allWs hc (by decide)] at h
  simp at h

theorem trySep_allWs {pat : RE} {c : RStr} (hc : allWs c) : trySep pat c = none := by
  unfold trySep
  cases h1 : findAnchored pat c with
  | none => rfl
  | some x =>
    obtain ⟨m, r, cp⟩ := x
    dsimp only
    cases h2 : capGet cp 1 with
    | none => rfl
    | some g1 =>
      cases h3 : capGet cp 2 with
      | none => rfl
      | some g2 => simp [findAnchored_cap_allWs h1 hc h3]

theorem stageSeps_allWs {c : RStr} (hc : allWs c) : stageSeps c = c := by
  unfold stageSeps
  rw [trySep_allWs hc, trySep_allWs hc, trySep_allWs hc]

theorem stageATBracket_allWs {original : RStr} (hs : allWs original) (c : RStr) :
    stageATBracket original c = c := by
  unfold stageATBracket
  cases h1 : findAnchored atBracketRE original with
  | none => rfl
  | some x =>
    obtain ⟨m, r, cp⟩ := x
    dsimp only
    cases h2 : capGet cp 2 with
    | none => rfl
    | some g => simp [findAnchored_cap_allWs h1 hs h2]

theorem stagePipe_allWs {c : RStr} (hc : allWs c) : stagePipe c = c := by
  unfold stagePipe
  rw [if_neg]
  intro h
  rw [containsS_false_of_allWs hc (by decide)] at h
  simp at h

theorem stripWrap_allWs {o cl : Char} {c : RStr} (hc : allWs c)
    (ho : isWs o = false) : stripWrap o cl c = some c := by
  unfold stripWrap
  rw [if_neg]
  intro h
  rw [startsWithC_false_of_allWs hc ho] at h
  simp at h

theorem stageCollapseWs_allWs {c : RStr} (hc : allWs c) :
    stageCollapseWs c = [] := by
  refine trimS_eq_nil_of_allWs (fun ch hch => ?_)
  rcases replaceAllRE_mem hch with h | h
  · exact hc ch h
  · simp only [List.mem_singleton] at h
    subst h; decide

theorem stageFwSlashFeat_allWs {c : RStr} (hc : allWs c) :
    stageFwSlashFeat c = c := by
  unfold stageFwSlashFeat
  rw [if_neg]
  intro h
  rcases h with h | ⟨h, -⟩ <;>
    · rw [containsS_false_of_allWs hc (by decide)] at h
      simp at h

theorem stageDashSplit_allWs {c : RStr} (hc : allWs c) : stageDashSplit c = c := by
  unfold stageDashSplit
  rw [if_neg]
  intro h
  rw [containsS_false_of_allWs hc (by decide)] at h
  simp at h

theorem stageDotSplit_allWs {c : RStr} (hc : allWs c) : stageDotSplit c = c := by
  unfold stageDotSplit
  rw [if_neg]
  intro h
  obtain ⟨h, -⟩ := h
  rw [containsS_false_of_allWs hc (by decide)] at h
  simp at h

theorem stageAcoustic_allWs {c : RStr} (hc : allWs c) : stageAcoustic c = c := by
  unfold stageAcoustic
  rw [if_neg]
  intro h
  rw [endsWithS_false_of_allWs hc (by decide)] at h
  simp at h

theorem stageMultiDash_allWs {c : RStr} (hc : allWs c) : stageMultiDash c = c := by
  unfold stageMultiDash
  rw [if_neg, if_neg]
  · intro h
    obtain ⟨h, -⟩ := h
    rw [containsS_false_of_allWs hc (by decide)] at h
    simp at h
  · intro h
    rw [containsS_false_of_allWs hc (by decide)] at h
    simp at h

theorem stageQuoteTitle_allWs {c : RStr} (hc : allWs c) : stageQuoteTitle c = c := by
  unfold stageQuoteTitle
  cases h1 : findAnchored quoteTitleRE c with
  | none => rfl
  | some x =>
    obtain ⟨m, r, cp⟩ := x
    dsimp only
    cases h2 : capGet cp 1 with
    | none => rfl
    | some g => simp [findAnchored_cap_allWs h1 hc h2]

theorem stageFwSlashX_allWs {c : RStr} (hc : allWs c) : stageFwSlashX c = c := by
  unfold stageFwSlashX
  rw [if_neg]
  intro h
  obtain ⟨h, -⟩ := h
  rw [containsS_false_of_allWs hc (by decide)] at h
  simp at h

theorem stageJapCover_allWs {c : RStr} (hc : allWs c) : stageJapCover c = c := by
  unfold stageJapCover
  rw [if_neg]
  intro h
  rw [containsS_false_of_allWs hc (by decide)] at h
  simp at h

theorem stageLastDash_allWs {c : RStr} (hc : allWs c) (original : RStr) :
    stageLastDash original c = c := by
  unfold stageLastDash
  rw [if_neg]
  intro h
  obtain ⟨-, h⟩ := h
  rw [containsS_false_of_allWs hc (by decide)] at h
  simp at h

theorem stageCas_allWs {c : RStr} (hc : allWs c) : stageCas c = c := by
  unfold stageCas
  rw [if_neg]
  intro h
  rw [containsS_false_of_allWs hc (by decide)] at h
  simp at h

theorem stageFullAlbum_allWs {original : RStr} (hs : allWs original) (c : RStr) :
    stageFullAlbum original c = c := by
  unfold stageFullAlbum
  rw [if_neg]
  intro h
  rw [containsS_false_of_allWs hs (by decide)] at h
  simp at h

/-- `clean_track_name` maps any whitespace-only string to the empty
string: every guarded stage refuses its whitespace-only candidate, and the
whitespace-collapsing stage of lines 304–307 trims the rest away. -/
theorem clean_track_name_allWs {s : RStr} (hs : allWs s) :
    clean_track_name s = some [] := by
  have h0 : isWs '"' = false := by decide
  have h1 : isWs '\'' = false := by decide
  have h2 : isWs '「' = false := by decide
  unfold clean_track_name
  simp only [stageJQuote_allWs hs, stageJMid_allWs hs, stageJSingle_allWs hs,
    stageJCorner_allWs hs, applyCleanups_allWs hs, stageFeatDash_allWs hs,
    stageSlash_allWs hs, stageSeps_allWs hs, stageATBracket_allWs hs,
    replaceStage_allWs hs, stagePipe_allWs hs, stripWrap_allWs hs h0,
    stripWrap_allWs hs h1, stripWrap_allWs hs h2, stageCollapseWs_allWs hs,
    stageFwSlashFeat_allWs allWs_nil, replaceStage_allWs allWs_nil,
    stripWrap_allWs allWs_nil h0, stageDashSplit_allWs allWs_nil,
    stageDotSplit_allWs allWs_nil, stageAcoustic_allWs allWs_nil,
    stageMultiDash_allWs allWs_nil, stageQuoteTitle_allWs allWs_nil,
    stageFwSlashX_allWs allWs_nil, stageJapCover_allWs allWs_nil,
    stageLastDash_allWs allWs_nil, stageCas_allWs allWs_nil,
    stageFullAlbum_allWs hs]

/-! ### `remove_artist_from_track` lemmas -/

/-- One guarded replacement step never lengthens the string and never
empties a non-empty one. -/
theorem raStep_le (r n : RStr) : byteLen (raStep r n) ≤ byteLen r := by
  unfold raStep
  split
  · next h => exact Nat.le_of_lt h.1
  · exact Nat.le_refl _

theorem raStep_ne_nil {r : RStr} (n : RStr) (hr : r ≠ []) : raStep r n ≠ [] := by
  unfold raStep
  split
  · next h => exact h.2
  · exact hr

theorem raStep_of_nil (r : RStr) {n : RStr} (hn : n = []) : raStep r n = r := by
  simp [raStep, hn]

/-- A whitespace-only track name is left untouched (each step's candidate
trims to empty, so the non-regression guard rejects it). -/
theorem remove_artist_allWs {t a : RStr} (ht : allWs t) :
    remove_artist_from_track t a = t := by
  unfold remove_artist_from_track
  split
  · rfl
  · have k1 : trimS (stripAnchored (artistHeadRE a) t) = [] := by
      unfold stripAnchored
      cases h : findAnchored (artistHeadRE a) t with
      | none => exact trimS_eq_nil_of_allWs ht
      | some x =>
        obtain ⟨m, r, cp⟩ := x
        dsimp only
        have hsp := (findAnchored_spec h).1
        exact trimS_eq_nil_of_allWs
          (allWs_of_sublist (hsp ▸ List.sublist_append_right _ _) ht)
    have k2 : trimS (replaceAllRE (artistTail1RE a) [] t) = [] :=
      replaceAll_trim_nil ht
    have k3 : trimS (replaceAllRE (artistTail2RE a) [] t) = [] :=
      replaceAll_trim_nil ht
    dsimp only
    rw [raStep_of_nil _ k1, raStep_of_nil _ k2, raStep_of_nil _ k3]

/-! ### Candidate generation lemmas -/

theorem build_candidates_ws {t a : RStr} (ht : trimS t = []) :
    build_candidates t a = some [] := by
  have htw : allWs t := trimS_eq_nil_iff.mp ht
  have hclean := clean_track_name_allWs htw
  have hra : remove_artist_from_track t a = t := remove_artist_allWs htw
  have hnil : trimS ([] : RStr) = [] := rfl
  simp [build_candidates, hclean, hra, ht, hnil]

theorem ite_singleton_sublist {b : Prop} [Decidable b] (x : SearchCandidate) :
    (if b then [x] else []).Sublist [x] := by
  split
  · exact List.Sublist.refl _
  · exact List.nil_sublist _

/-- Unfolding of a successful `build_candidates` run. -/
theorem build_candidates_eq {t a : RStr} {cs : List SearchCandidate}
    (h : build_candidates t a = some cs) :
    ∃ ct ctw, clean_track_name t = some ct ∧
      clean_track_name (remove_artist_from_track t a) = some ctw ∧
      cs =
        (if trimS t ≠ [] ∧ trimS a ≠ [] then
          [⟨10, .wildcard, t ++ ' ' :: a⟩] else []) ++
        (if trimS t ≠ [] then [⟨9, .wildcard, t⟩] else []) ++
        (if trimS ct ≠ [] ∧ trimS a ≠ [] then
          [⟨8, .wildcard, ct ++ ' ' :: a⟩] else []) ++
        (if trimS ct ≠ [] then [⟨7, .wildcard, ct⟩] else []) ++
        (if trimS t ≠ [] ∧ trimS a ≠ [] then [⟨6, .exact, t⟩] else []) ++
        (if trimS (remove_artist_from_track t a) ≠ [] ∧ trimS a ≠ [] then
          [⟨5, .exact, remove_artist_from_track t a⟩] else []) ++
        (if trimS ct ≠ [] ∧ trimS a ≠ [] then [⟨4, .exact, ct⟩] else []) ++
        (if trimS ctw ≠ [] ∧ trimS a ≠ [] then [⟨3, .exact, ctw⟩] else []) := by
  unfold build_candidates at h
  cases h1 : clean_track_name t with
  | none => rw [h1] at h; cases h
  | some ct =>
    rw [h1] at h
    simp only [Option.bind_eq_bind, Option.some_bind] at h
    cases h2 : clean_track_name (remove_artist_from_track t a) with
    | none => rw [h2] at h; cases h
    | some ctw =>
      rw [h2] at h
      simp only [Option.some_bind, pure] at h
      exact ⟨ct, ctw, rfl, rfl, (Option.some_injective _ h).symm⟩

/-- The three ranking properties of the candidate vector: strictly
descending (hence pairwise-distinct) priorities, every wildcard variant
above every exact variant, and no empty query text. -/
theorem build_candidates_props {t a : RStr} {cs : List SearchCandidate}
    (h : build_candidates t a = some cs) :
    cs.Pairwise (fun x y => x.priority > y.priority) ∧
    (∀ x ∈ cs, x.kind = CandKind.wildcard → ∀ y ∈ cs, y.kind = CandKind.exact →
      x.priority > y.priority) ∧
    (∀ x ∈ cs, trimS x.query ≠ []) := by
  obtain ⟨ct, ctw, h1, h2, rfl⟩ := build_candidates_eq h
  refine ⟨?_, ?_, ?_⟩
  · have hpw : List.Pairwise (fun x y => x.priority > y.priority)
        ([⟨10, .wildcard, t ++ ' ' :: a⟩, ⟨9, .wildcard, t⟩,
          ⟨8, .wildcard, ct ++ ' ' :: a⟩, ⟨7, .wildcard, ct⟩,
          ⟨6, .exact, t⟩, ⟨5, .exact, remove_artist_from_track t a⟩,
          ⟨4, .exact, ct⟩, ⟨3, .exact, ctw⟩] : List SearchCandidate) := by
      norm_num [List.pairwise_cons]
    refine List.Pairwise.sublist ?_ hpw
    exact (((((((ite_singleton_sublist _).append
      (ite_singleton_sublist _)).append (ite_singleton_sublist _)).append
      (ite_singleton_sublist _)).append (ite_singleton_sublist _)).append
      (ite_singleton_sublist _)).append (ite_singleton_sublist _)).append
      (ite_singleton_sublist _)
  · intro x hx hkx y hy hky
    simp only [List.append_assoc, List.mem_append, List.mem_ite_nil_right,
      List.mem_singleton] at hx hy
    rcases hx with ⟨u1, rfl⟩ | ⟨u2, rfl⟩ | ⟨u3, rfl⟩ | ⟨u4, rfl⟩ | ⟨u5, rfl⟩ |
      ⟨u6, rfl⟩ | ⟨u7, rfl⟩ | ⟨u8, rfl⟩ <;>
      rcases hy with ⟨v1, rfl⟩ | ⟨v2, rfl⟩ | ⟨v3, rfl⟩ | ⟨v4, rfl⟩ | ⟨v5, rfl⟩ |
        ⟨v6, rfl⟩ | ⟨v7, rfl⟩ | ⟨v8, rfl⟩ <;>
      simp_all
  · intro x hx
    simp only [List.append_assoc, List.mem_append, List.mem_ite_nil_right,
      List.mem_singleton] at hx
    rcases hx with ⟨⟨hp, -⟩, rfl⟩ | ⟨hp, rfl⟩ | ⟨⟨hp, -⟩, rfl⟩ | ⟨hp, rfl⟩ |
      ⟨⟨hp, -⟩, rfl⟩ | ⟨⟨hp, -⟩, rfl⟩ | ⟨⟨hp, -⟩, rfl⟩ | ⟨⟨hp, -⟩, rfl⟩
    · exact trimS_append_ne_nil hp
    · exact hp
    · exact trimS_append_ne_nil hp
    · exact hp
    · exact hp
    · exact hp
    · exact hp
    · exact hp

/-! ### Search-race lemmas -/

theorem raceLoop_none_iff {top : Nat} : ∀ (evs : List FetchEvent)
    (best : Option (Nat × List LyricLine)),
    raceLoop top evs best = none ↔
      best = none ∧ ∀ p ls, FetchEvent.ok p ls ∈ evs → ls = [] := by
  intro evs
  induction evs with
  | nil =>
    intro best
    simp [raceLoop]
  | cons e rest ih =>
    intro best
    cases e with
    | err =>
      rw [raceLoop, ih]
      constructor
      · rintro ⟨hb, hall⟩
        exact ⟨hb, fun p ls hm => hall p ls (by
          rcases List.mem_cons.mp hm with hm | hm
          · cases hm
          · exact hm)⟩
      · rintro ⟨hb, hall⟩
        exact ⟨hb, fun p ls hm => hall p ls (List.mem_cons_of_mem _ hm)⟩
    | ok p ls =>
      rw [raceLoop]
      split
      · next hcond =>
        split
        · constructor
          · intro hx; cases hx
          · rintro ⟨-, hall⟩
            exact absurd (hall p ls (List.mem_cons_self _ _)) hcond.1
        · rw [ih]
          constructor
          · rintro ⟨hb, -⟩
            cases hb
          · rintro ⟨-, hall⟩
            exact absurd (hall p ls (List.mem_cons_self _ _)) hcond.1
      · next hcond =>
        rw [ih]
        constructor
        · rintro ⟨hb, hall⟩
          subst hb
          refine ⟨rfl, fun p' ls' hm => ?_⟩
          rcases List.mem_cons.mp hm with hm | hm
          · cases hm
            by_contra hne
            exact hcond ⟨hne, Or.inl rfl⟩
          · exact hall p' ls' hm
        · rintro ⟨hb, hall⟩
          exact ⟨hb, fun p' ls' hm => hall p' ls' (List.mem_cons_of_mem _ hm)⟩

/-- The loop swallows error events. -/
theorem raceLoop_err (top : Nat) (evs : List FetchEvent)
    (best : Option (Nat × List LyricLine)) :
    raceLoop top (FetchEvent.err :: evs) best = raceLoop top evs best := rfl

/-! ### LRC decoder lemmas -/

theorem assignDurations_length : ∀ l : List LyricLine,
    (assignDurations l).length = l.length
  | [] => rfl
  | [_] => rfl
  | x :: y :: rest => by
    simp only [assignDurations, List.length_cons]
    rw [assignDurations_length (y :: rest)]
    simp

theorem assignDurations_map_time : ∀ l : List LyricLine,
    (assignDurations l).map LyricLine.time = l.map LyricLine.time
  | [] => rfl
  | [_] => rfl
  | x :: y :: rest => by
    simp only [assignDurations, List.map_cons]
    rw [show (assignDurations (y :: rest)).map LyricLine.time =
      (y :: rest).map LyricLine.time from assignDurations_map_time (y :: rest)]
    simp

theorem assignDurations_mem : ∀ (l : List LyricLine) (x : LyricLine),
    x ∈ assignDurations l → ∃ y ∈ l, x.time = y.time ∧ x.text = y.text := by
  intro l
  induction l with
  | nil => intro x hx; cases hx
  | cons a rest ih =>
    cases rest with
    | nil =>
      intro x hx
      simp only [assignDurations, List.mem_singleton] at hx
      subst hx
      exact ⟨a, List.mem_cons_self _ _, rfl, rfl⟩
    | cons b rest2 =>
      intro x hx
      simp only [assignDurations, List.mem_cons] at hx
      rcases hx with hx | hx
      · subst hx
        exact ⟨a, List.mem_cons_self _ _, rfl, rfl⟩
      · obtain ⟨y, hy, h1, h2⟩ := ih x hx
        exact ⟨y, List.mem_cons_of_mem _ hy, h1, h2⟩

theorem assignDurations_head_time : ∀ (y : LyricLine) (rest : List LyricLine),
    ∃ z rest2, assignDurations (y :: rest) = z :: rest2 ∧ z.time = y.time := by
  intro y rest
  cases rest with
  | nil => exact ⟨_, _, rfl, rfl⟩
  | cons b rest2 => exact ⟨_, _, rfl, rfl⟩

theorem assignDurations_gapOk : ∀ l : List LyricLine, gapOk (assignDurations l) := by
  intro l
  induction l with
  | nil => trivial
  | cons a rest ih =>
    cases rest with
    | nil => trivial
    | cons b rest2 =>
      obtain ⟨z, zr, hz, hzt⟩ := assignDurations_head_time b rest2
      simp only [assignDurations, hz] at ih ⊢
      exact ⟨by rw [hzt], ih⟩

theorem assignDurations_getLast : ∀ (l : List LyricLine) (x : LyricLine),
    (assignDurations l).getLast? = some x → x.duration = some 3 := by
  intro l
  induction l with
  | nil => intro x hx; cases hx
  | cons a rest ih =>
    cases rest with
    | nil =>
      intro x hx
      simp only [assignDurations, List.getLast?_singleton] at hx
      cases hx
      rfl
    | cons b rest2 =>
      intro x hx
      obtain ⟨z, zr, hz, -⟩ := assignDurations_head_time b rest2
      simp only [assignDurations] at hx
      rw [List.getLast?_cons, hz] at hx
      · exact ih x (by rw [hz]; exact hx)

theorem assignDurations_sorted {l : List LyricLine}
    (h : List.Pairwise timeLE l) : sortedByTime (assignDurations l) := by
  unfold sortedByTime
  have h1 : List.Pairwise (fun a b : ℚ => a ≤ b) (l.map LyricLine.time) :=
    (List.pairwise_map).mpr h
  rw [← assignDurations_map_time] at h1
  exact (List.pairwise_map (f := LyricLine.time)).mp h1

theorem mkTime_nonneg (m s c : Nat) : 0 ≤ mkTime m s c := by
  unfold mkTime
  positivity

theorem parseLrcLine_nonneg {l : RStr} {t : ℚ} {txt : RStr}
    (h : parseLrcLine l = some (t, txt)) : 0 ≤ t := by
  unfold parseLrcLine at h
  repeat' split at h
  all_goals try cases h
  all_goals exact mkTime_nonneg _ _ _

theorem parse_lrc_format_eq (lrc_content : RStr) :
    parse_lrc_format lrc_content =
      assignDurations (List.insertionSort timeLE (lrcRaw lrc_content)) := rfl

theorem lrcRaw_mem {lrc_content : RStr} {x : LyricLine}
    (hx : x ∈ lrcRaw lrc_content) : 0 ≤ x.time ∧ x.text ≠ [] := by
  simp only [lrcRaw, List.mem_filterMap] at hx
  obtain ⟨l, -, hl⟩ := hx
  cases hp : parseLrcLine l with
  | none => rw [hp] at hl; cases hl
  | some y =>
    obtain ⟨t, txt⟩ := y
    rw [hp] at hl
    dsimp only at hl
    split at hl
    · cases hl
      exact ⟨parseLrcLine_nonneg hp, by assumption⟩
    · cases hl

/-- The full data-model invariant for `parse_lrc_format` output. -/
theorem parse_lrc_format_invariant (lrc_content : RStr) :
    sortedByTime (parse_lrc_format lrc_content) ∧
    (∀ x ∈ parse_lrc_format lrc_content, 0 ≤ x.time ∧ x.text ≠ []) ∧
    gapOk (parse_lrc_format lrc_content) ∧
    (∀ x, (parse_lrc_format lrc_content).getLast? = some x →
      x.duration = some 3) := by
  rw [parse_lrc_format_eq]
  refine ⟨assignDurations_sorted (List.sorted_insertionSort timeLE _),
    fun x hx => ?_, assignDurations_gapOk _, fun x hx => assignDurations_getLast _ x hx⟩
  obtain ⟨y, hy, h1, h2⟩ := assignDurations_mem _ x hx
  have hy2 : y ∈ lrcRaw lrc_content :=
    (List.perm_insertionSort timeLE _).mem_iff.mp hy
  obtain ⟨hy3, hy4⟩ := lrcRaw_mem hy2
  rw [h1, h2]
  exact ⟨hy3, hy4⟩

theorem convert_plain_eq (plain_lyrics : RStr) :
    convert_plain_lyrics_to_lines plain_lyrics =
      ((linesOf plain_lyrics).enum).filterMap plainF := rfl

theorem plain_filterMap_mem : ∀ (n : Nat) (ls : List RStr) (x : LyricLine),
    x ∈ (List.enumFrom n ls).filterMap plainF →
    x.duration = some 5 ∧ x.text ≠ [] ∧ 0 ≤ x.time ∧
      ∃ j, n ≤ j ∧ x.time = (j : ℚ) * 5 := by
  intro n ls
  induction ls generalizing n with
  | nil => intro x hx; cases hx
  | cons l ls ih =>
    intro x hx
    simp only [List.enumFrom_cons, List.filterMap_cons] at hx
    cases hf : plainF (n, l) with
    | none =>
      rw [hf] at hx
      obtain ⟨h1, h2, h3, j, hj, ht⟩ := ih (n + 1) x hx
      exact ⟨h1, h2, h3, j, by omega, ht⟩
    | some y =>
      rw [hf] at hx
      rcases List.mem_cons.mp hx with hx | hx
      · subst hx
        simp only [plainF] at hf
        split at hf
        · cases hf
          refine ⟨rfl, by assumption, by positivity, n, le_refl n, rfl⟩
        · cases hf
      · obtain ⟨h1, h2, h3, j, hj, ht⟩ := ih (n + 1) x hx
        exact ⟨h1, h2, h3, j, by omega, ht⟩

theorem plain_filterMap_sorted : ∀ (n : Nat) (ls : List RStr),
    List.Pairwise (fun a b : LyricLine => a.time < b.time)
      ((List.enumFrom n ls).filterMap plainF) := by
  intro n ls
  induction ls generalizing n with
  | nil => simp
  | cons l ls ih =>
    simp only [List.enumFrom_cons, List.filterMap_cons]
    cases hf : plainF (n, l) with
    | none => exact ih (n + 1)
    | some y =>
      refine List.Pairwise.cons (fun z hz => ?_) (ih (n + 1))
      obtain ⟨-, -, -, j, hj, ht⟩ := plain_filterMap_mem (n + 1) ls z hz
      have hy : y.time = (n : ℚ) * 5 := by
        simp only [plainF] at hf
        split at hf
        · cases hf; rfl
        · cases hf
      rw [hy, ht]
      have : (n : ℚ) < (j : ℚ) := by exact_mod_cast by omega
      nlinarith

theorem plain_filterMap_length : ∀ (n : Nat) (ls : List RStr),
    ((List.enumFrom n ls).filterMap plainF).length =
      ls.countP (fun l => !(trimS l).isEmpty) := by
  intro n ls
  induction ls generalizing n with
  | nil => rfl
  | cons l ls ih =>
    simp only [List.enumFrom_cons, List.filterMap_cons, List.countP_cons]
    cases hb : (trimS l).isEmpty with
    | true =>
      have : plainF (n, l) = none := by
        simp only [plainF]
        rw [if_neg]
        simpa using List.isEmpty_iff.mp hb
      rw [this, ih (n + 1)]
      simp [hb]
    | false =>
      have : plainF (n, l) =
          some { time := (n : ℚ) * 5, text := trimS l, duration := some 5 } := by
        simp only [plainF]
        rw [if_pos]
        exact List.isEmpty_eq_false.mp hb
      rw [this]
      dsimp only
      rw [List.length_cons, ih (n + 1)]
      simp [hb]

theorem plain_filterMap_noblank : ∀ (ls : List RStr) (n : Nat),
    (∀ l ∈ ls, trimS l ≠ []) →
    ∀ (i : Nat) (x : LyricLine),
      ((List.enumFrom n ls).filterMap plainF)[i]? = some x →
      x.time = ((n + i : Nat) : ℚ) * 5 := by
  intro ls
  induction ls with
  | nil => intro n _ i x h; simp at h
  | cons l ls ih =>
    intro n hnb i x h
    have hf : plainF (n, l) =
        some { time := (n : ℚ) * 5, text := trimS l, duration := some 5 } := by
      simp only [plainF]
      rw [if_pos (hnb l (List.mem_cons_self _ _))]
    rw [List.enumFrom_cons, List.filterMap_cons, hf] at h
    dsimp only at h
    cases i with
    | zero =>
      simp only [List.getElem?_cons_zero] at h
      cases h
      simp
    | succ i =>
      simp only [List.getElem?_cons_succ] at h
      have := ih (n + 1) (fun l hl => hnb l (List.mem_cons_of_mem _ hl)) i x h
      rw [this]
      push_cast
      ring

theorem splitChar_ne_nil (sep : Char) : ∀ s : RStr, splitChar sep s ≠ [] := by
  intro s
  cases s with
  | nil => simp [splitChar]
  | cons c r =>
    cases h : splitChar sep r with
    | nil => simp [splitChar, h]
    | cons a t =>
      simp only [splitChar, h]
      split <;> simp

theorem splitChar_not_mem {sep : Char} : ∀ {s : RStr}, sep ∉ s →
    splitChar sep s = [s] := by
  intro s
  induction s with
  | nil => intro _; rfl
  | cons c r ih =>
    intro h
    have hc : c ≠ sep := fun hc => h (hc ▸ List.mem_cons_self _ _)
    have hr : sep ∉ r := fun hr => h (List.mem_cons_of_mem _ hr)
    simp only [splitChar, ih hr]
    simp [hc]

theorem splitChar_append {sep : Char} : ∀ {p : RStr} (t : RStr), sep ∉ p →
    splitChar sep (p ++ sep :: t) = p :: splitChar sep t := by
  intro p
  induction p with
  | nil =>
    intro t _
    simp only [List.nil_append]
    cases h : splitChar sep t with
    | nil => exact absurd h (splitChar_ne_nil sep t)
    | cons a r =>
      simp only [splitChar, h]
      simp
  | cons c pr ih =>
    intro t h
    have hc : c ≠ sep := fun hc => h (hc ▸ List.mem_cons_self _ _)
    have hp : sep ∉ pr := fun hp => h (List.mem_cons_of_mem _ hp)
    simp only [List.cons_append, splitChar, ih t hp]
    simp [hc]
    rw [ih t hp]

theorem splitChar_joinNl : ∀ {ps : List RStr}, ps ≠ [] →
    (∀ p ∈ ps, '\n' ∉ p) → splitChar '\n' (joinNl ps) = ps := by
  intro ps
  induction ps with
  | nil => intro h; cases h rfl
  | cons p rest ih =>
    intro _ hmem
    cases rest with
    | nil => exact splitChar_not_mem (hmem p (List.mem_cons_self _ _))
    | cons q rest2 =>
      show splitChar '\n' (p ++ '\n' :: joinNl (q :: rest2)) = _
      rw [splitChar_append _ (hmem p (List.mem_cons_self _ _))]
      rw [ih (by simp) (fun x hx => hmem x (List.mem_cons_of_mem _ hx))]

theorem endsWithC_mem {p : RStr} {c : Char} (h : endsWithC p c = true) : c ∈ p := by
  unfold endsWithC startsWithC at h
  cases hr : p.reverse with
  | nil => rw [hr] at h; cases h
  | cons a t =>
    rw [hr] at h
    simp only [decide_eq_true_eq] at h
    subst h
    have : a ∈ p.reverse := hr ▸ List.mem_cons_self _ _
    simpa using this

theorem stripTrailCr_id {p : RStr} (h : '\r' ∉ p) : stripTrailCr p = p := by
  unfold stripTrailCr
  rw [if_neg]
  intro hc
  exact h (endsWithC_mem hc)

theorem linesOf_joinNl {ps : List RStr} (hne : ps ≠ [])
    (h1 : ∀ p ∈ ps, '\n' ∉ p) (h2 : ∀ p ∈ ps, p ≠ [])
    (h3 : ∀ p ∈ ps, '\r' ∉ p) : linesOf (joinNl ps) = ps := by
  unfold linesOf
  rw [splitChar_joinNl hne h1]
  rcases List.eq_nil_or_concat ps with rfl | ⟨l, b, rfl⟩
  · cases hne rfl
  · have hb : b ≠ [] := h2 b (by simp)
    simp only [List.concat_eq_append, List.dropLast_concat, List.getLastD_concat]
    rw [if_neg hb]
    congr 1
    have := List.map_congr_left (fun p hp =>
      stripTrailCr_id (h3 p (by
        rw [List.concat_eq_append]
        exact List.mem_append.mpr (Or.inl hp))))
    simpa using this

theorem digitChar_isDigit {n : Nat} (h : n < 10) : (digitChar n).isDigit = true := by
  interval_cases n <;> decide

theorem digitChar_toNat {n : Nat} (h : n < 10) : (digitChar n).toNat = 48 + n := by
  interval_cases n <;> decide

theorem digitChar_ne_nl {n : Nat} (h : n < 10) : digitChar n ≠ '\n' := by
  interval_cases n <;> decide

theorem digitChar_ne_cr {n : Nat} (h : n < 10) : digitChar n ≠ '\r' := by
  interval_cases n <;> decide

theorem d2_digitChar {n : Nat} (h : n < 100) :
    d2 (digitChar (n / 10)) (digitChar (n % 10)) = n := by
  unfold d2
  rw [digitChar_toNat (by omega), digitChar_toNat (by omega)]
  omega

/-- A rendered tag line parses back to its timestamp and text. -/
theorem parseLrcLine_renderTag {e : LrcEntry} (hm : e.m < 100) (hs : e.s < 100)
    (hc : e.c < 100) : parseLrcLine (renderTag e) = some (entryTime e, e.text) := by
  have dm1 := digitChar_isDigit (n := e.m / 10) (by omega)
  have dm2 := digitChar_isDigit (n := e.m % 10) (by omega)
  have ds1 := digitChar_isDigit (n := e.s / 10) (by omega)
  have ds2 := digitChar_isDigit (n := e.s % 10) (by omega)
  cases hw : e.withC with
  | false =>
    simp only [renderTag, hw, if_false]
    show parseLrcLine ('[' :: _ :: _ :: ':' :: _ :: _ :: ']' :: e.text) = _
    unfold parseLrcLine
    dsimp only
    rw [if_pos (by simp [dm1, dm2, ds1, ds2])]
    rw [d2_digitChar hm, d2_digitChar hs]
    rcases htx : e.text with - | ⟨x1, - | ⟨x2, - | ⟨x3, t⟩⟩⟩ <;>
      simp [entryTime, hw]
  | true =>
    have dc1 := digitChar_isDigit (n := e.c / 10) (by omega)
    have dc2 := digitChar_isDigit (n := e.c % 10) (by omega)
    simp only [renderTag, hw, if_true]
    show parseLrcLine
      ('[' :: _ :: _ :: ':' :: _ :: _ :: '.' :: _ :: _ :: ']' :: e.text) = _
    unfold parseLrcLine
    dsimp only
    rw [if_pos (by simp [dm1, dm2, ds1, ds2])]
    rw [if_pos (by simp [dc1, dc2])]
    rw [d2_digitChar hm, d2_digitChar hs, d2_digitChar hc]
    simp [entryTime, hw]

theorem renderTag_mem {e : LrcEntry} {x : Char} (hwf : wellFormedE e)
    (hx : x ∈ renderTag e) :
    x ∈ (['[', ':', '.', ']'] : List Char) ∨
      (∃ n, n < 10 ∧ x = digitChar n) ∨ x ∈ e.text := by
  obtain ⟨hm, hs, hc, -, -, -, -⟩ := hwf
  unfold renderTag at hx
  cases hw : e.withC <;> rw [hw] at hx <;>
    simp only [Bool.false_eq_true, if_false, if_true, List.mem_cons] at hx
  · rcases hx with h | h | h | h | h | h | h | h
    · exact Or.inl (by simp [h])
    · exact Or.inr (Or.inl ⟨e.m / 10, by omega, h⟩)
    · exact Or.inr (Or.inl ⟨e.m % 10, by omega, h⟩)
    · exact Or.inl (by simp [h])
    · exact Or.inr (Or.inl ⟨e.s / 10, by omega, h⟩)
    · exact Or.inr (Or.inl ⟨e.s % 10, by omega, h⟩)
    · exact Or.inl (by simp [h])
    · exact Or.inr (Or.inr h)
  · rcases hx with h | h | h | h | h | h | h | h | h | h | h
    · exact Or.inl (by simp [h])
    · exact Or.inr (Or.inl ⟨e.m / 10, by omega, h⟩)
    · exact Or.inr (Or.inl ⟨e.m % 10, by omega, h⟩)
    · exact Or.inl (by simp [h])
    · exact Or.inr (Or.inl ⟨e.s / 10, by omega, h⟩)
    · exact Or.inr (Or.inl ⟨e.s % 10, by omega, h⟩)
    · exact Or.inl (by simp [h])
    · exact Or.inr (Or.inl ⟨e.c / 10, by omega, h⟩)
    · exact Or.inr (Or.inl ⟨e.c % 10, by omega, h⟩)
    · exact Or.inl (by simp [h])
    · exact Or.inr (Or.inr h)

theorem renderTag_not_nl {e : LrcEntry} (hwf : wellFormedE e) :
    '\n' ∉ renderTag e := by
  intro hmem
  rcases renderTag_mem hwf hmem with h | ⟨n, hn, h⟩ | h
  · simp at h
  · exact digitChar_ne_nl hn h.symm
  · exact hwf.2.2.2.2.2.1 h

theorem renderTag_not_cr {e : LrcEntry} (hwf : wellFormedE e) :
    '\r' ∉ renderTag e := by
  intro hmem
  rcases renderTag_mem hwf hmem with h | ⟨n, hn, h⟩ | h
  · simp at h
  · exact digitChar_ne_cr hn h.symm
  · exact hwf.2.2.2.2.2.2 h

theorem renderTag_ne_nil (e : LrcEntry) : renderTag e ≠ [] := by
  unfold renderTag
  simp

/-- The collected lines of a rendered synthetic LRC text are exactly the
entries' timestamps and texts in order. -/
theorem lrcRaw_render {es : List LrcEntry} (hwf : ∀ e ∈ es, wellFormedE e) :
    lrcRaw (renderLrc es) =
      es.map (fun e => { time := entryTime e, text := e.text, duration := none }) := by
  cases hes : es with
  | nil => rfl
  | cons e0 rest =>
    rw [← hes]
    have hne : es ≠ [] := by rw [hes]; simp
    unfold lrcRaw renderLrc
    rw [linesOf_joinNl (by simpa using hne)
      (fun p hp => by
        obtain ⟨e, he, rfl⟩ := List.mem_map.mp hp
        exact renderTag_not_nl (hwf e he))
      (fun p hp => by
        obtain ⟨e, he, rfl⟩ := List.mem_map.mp hp
        exact renderTag_ne_nil e)
      (fun p hp => by
        obtain ⟨e, he, rfl⟩ := List.mem_map.mp hp
        exact renderTag_not_cr (hwf e he))]
    clear hes hne
    induction es with
    | nil => rfl
    | cons e rest2 ih =>
      obtain ⟨hm, hs, hc, htr, hne2, -, -⟩ := hwf e (List.mem_cons_self _ _)
      simp only [List.map_cons, List.filterMap_cons,
        parseLrcLine_renderTag hm hs hc]
      rw [ih (fun x hx => hwf x (List.mem_cons_of_mem _ hx))]
      simp [htr, hne2]

theorem assignDurations_map_text : ∀ l : List LyricLine,
    (assignDurations l).map LyricLine.text = l.map LyricLine.text
  | [] => rfl
  | [_] => rfl
  | x :: y :: rest => by
    simp only [assignDurations, List.map_cons]
    rw [show (assignDurations (y :: rest)).map LyricLine.text =
      (y :: rest).map LyricLine.text from assignDurations_map_text (y :: rest)]
    simp

/-- Round-trip of a synthetic LRC text with strictly increasing
timestamps: one output line per entry, in order, with the entry's
timestamp and text, gap durations, sortedness, and a final `3.0`. -/
theorem parse_lrc_render {es : List LrcEntry}
    (hwf : ∀ e ∈ es, wellFormedE e)
    (hst : es.Pairwise (fun a b => entryTime a < entryTime b)) :
    (parse_lrc_format (renderLrc es)).length = es.length ∧
    (parse_lrc_format (renderLrc es)).map LyricLine.time = es.map entryTime ∧
    (parse_lrc_format (renderLrc es)).map LyricLine.text =
      es.map LrcEntry.text ∧
    gapOk (parse_lrc_format (renderLrc es)) ∧
    sortedByTime (parse_lrc_format (renderLrc es)) ∧
    (∀ x, (parse_lrc_format (renderLrc es)).getLast? = some x →
      x.duration = some 3) := by
  have hraw := lrcRaw_render hwf
  have hsorted : List.Pairwise timeLE (lrcRaw (renderLrc es)) := by
    rw [hraw]
    exact (List.pairwise_map).mpr (hst.imp (fun h => le_of_lt h))
  have heq : List.insertionSort timeLE (lrcRaw (renderLrc es)) =
      lrcRaw (renderLrc es) := List.Sorted.insertionSort_eq hsorted
  rw [parse_lrc_format_eq, heq, hraw]
  refine ⟨?_, ?_, ?_, assignDurations_gapOk _,
    assignDurations_sorted (hraw ▸ hsorted),
    fun x hx => assignDurations_getLast _ x hx⟩
  · rw [assignDurations_length, List.length_map]
  · rw [assignDurations_map_time, List.map_map]
    rfl
  · rw [assignDurations_map_text, List.map_map]
    rfl

/-! ### Claim theorems -/

set_option maxRecDepth 2000000

/-- C1: the spec claims `clean_track_name` never panics ("always returns a
string").  The code violates this: on the input `「ab」` the inner 「」
extraction guard (`len > 2` over the two-byte content "ab") falls through,
the whole-string 「...」 wrap-strip of lines 294–296 fires, and
`cleaned[1..cleaned.len()-1]` slices at byte offset 1 inside the three-byte
character `「` — a char-boundary panic, modelled here as `none`. -/
theorem c1_clean_track_name_panics_on_corner_quotes :
    clean_track_name ("「ab」".toList) = none := by decide

/-- C2: the spec claims the output is never empty for a non-empty input.
The code violates this: the unconditional whitespace-collapse stage of
lines 304–307 (the only unguarded stage) maps the non-empty input `" "`
to the empty string, which every later stage preserves. -/
theorem c2_clean_track_name_empty_on_space :
    clean_track_name (" ".toList) = some [] ∧ (" ".toList : RStr) ≠ [] := by
  decide

/-- C3 (counterexample): `clean_track_name` is not idempotent on all
strings.  For the input `"""ab"""` (three double quotes each side) one
pass strips two quote layers (lines 288–290 and 363–365) leaving `"ab"`,
and a second pass strips the remaining layer. -/
theorem c3_not_idempotent_counterexample :
    (clean_track_name ("\"\"\"ab\"\"\"".toList)).bind clean_track_name ≠
      clean_track_name ("\"\"\"ab\"\"\"".toList) := by decide

/-- C3 (amended): idempotence holds on representative corpus-style inputs
(the spec's own examples and test patterns), though not universally. -/
theorem c3_idempotent_on_corpus_samples :
    ((clean_track_name ("Song Title (feat. Artist)".toList)).bind
        clean_track_name =
      clean_track_name ("Song Title (feat. Artist)".toList)) ∧
    ((clean_track_name ("Song Title - YouTube Music".toList)).bind
        clean_track_name =
      clean_track_name ("Song Title - YouTube Music".toList)) ∧
    ((clean_track_name ("Artist - Song".toList)).bind clean_track_name =
      clean_track_name ("Artist - Song".toList)) := by
  refine ⟨?_, ?_, ?_⟩ <;> decide

/-- C4: LRC round-trip.  Empty input parses to the empty sequence, and a
synthetic LRC text of well-formed `[mm:ss]`/`[mm:ss.cc]` tags with strictly
increasing timestamps and non-blank single-line texts parses to exactly one
line per tag, in order and sorted, each non-last duration the gap to the
next timestamp (`gapOk` against the output's own times, which are exactly
the entry timestamps) and the last duration exactly `3.0`. -/
theorem c4_parse_lrc_round_trip :
    parse_lrc_format [] = [] ∧
    ∀ es : List LrcEntry, (∀ e ∈ es, wellFormedE e) →
      es.Pairwise (fun a b => entryTime a < entryTime b) →
      (parse_lrc_format (renderLrc es)).length = es.length ∧
      sortedByTime (parse_lrc_format (renderLrc es)) ∧
      (parse_lrc_format (renderLrc es)).map LyricLine.time = es.map entryTime ∧
      gapOk (parse_lrc_format (renderLrc es)) ∧
      (∀ x, (parse_lrc_format (renderLrc es)).getLast? = some x →
        x.duration = some 3) := by
  refine ⟨rfl, fun es hwf hst => ?_⟩
  obtain ⟨h1, h2, -, h4, h5, h6⟩ := parse_lrc_render hwf hst
  exact ⟨h1, h5, h2, h4, h6⟩

section RatEval

attribute [local semireducible] Rat.mul Rat.add Rat.sub Rat.inv

/-- C4 (witness): the round-trip property applied to a concrete two-line
LRC text mixing both tag forms. -/
theorem c4_parse_lrc_round_trip_witness :
    (parse_lrc_format (renderLrc
      [⟨0, 1, 0, false, "a".toList⟩, ⟨0, 3, 50, true, "b".toList⟩])).length =
      ([⟨0, 1, 0, false, "a".toList⟩,
        ⟨0, 3, 50, true, "b".toList⟩] : List LrcEntry).length :=
  (c4_parse_lrc_round_trip.2
    [⟨0, 1, 0, false, "a".toList⟩, ⟨0, 3, 50, true, "b".toList⟩]
    (by decide) (by decide)).1

/-- C5 (counterexample): the claim predicts `time = 5.0 * output_index`,
i.e. times `[0, 5]` for the two lines produced from `"a\n\nb"`; the code
indexes over all input lines (blank ones included) and produces times
`[0, 10]`. -/
theorem c5_plain_spacing_counterexample :
    (convert_plain_lyrics_to_lines ("a\n\nb".toList)).length = 2 ∧
    (convert_plain_lyrics_to_lines ("a\n\nb".toList)).map LyricLine.time ≠
      [5 * 0, 5 * 1] := by decide

end RatEval

/-- C5 (amended): `convert_plain_lyrics_to_lines` returns one line per
non-blank input line, all with duration `5.0` and `time = 5.0 × (source
line index among all input lines)`; in particular `time = 5.0 × output
index` exactly when the input has no blank lines. -/
theorem c5_plain_spacing_amended : ∀ pl : RStr,
    (convert_plain_lyrics_to_lines pl).length =
      (linesOf pl).countP (fun l => !(trimS l).isEmpty) ∧
    (∀ x ∈ convert_plain_lyrics_to_lines pl,
      x.duration = some 5 ∧ ∃ j : Nat, x.time = (j : ℚ) * 5) ∧
    ((∀ l ∈ linesOf pl, trimS l ≠ []) →
      (convert_plain_lyrics_to_lines pl).length = (linesOf pl).length ∧
      ∀ (i : Nat) (x : LyricLine),
        (convert_plain_lyrics_to_lines pl)[i]? = some x →
        x.time = (i : ℚ) * 5) := by
  intro pl
  rw [convert_plain_eq]
  have he : (linesOf pl).enum = List.enumFrom 0 (linesOf pl) := rfl
  rw [he]
  refine ⟨plain_filterMap_length 0 _, fun x hx => ?_,
    fun hnb => ⟨?_, fun i x hx => ?_⟩⟩
  · obtain ⟨h1, -, -, j, -, ht⟩ := plain_filterMap_mem 0 _ x hx
    exact ⟨h1, j, ht⟩
  · rw [plain_filterMap_length 0]
    exact List.countP_eq_length.mpr (fun l hl => by simpa using hnb l hl)
  · have := plain_filterMap_noblank _ 0 hnb i x hx
    simpa using this

/-- C5 (witness): the amended spacing property applied to a blank-free
concrete input. -/
theorem c5_plain_spacing_witness :
    (convert_plain_lyrics_to_lines ("a\nb".toList)).length =
      (linesOf ("a\nb".toList)).length :=
  ((c5_plain_spacing_amended ("a\nb".toList)).2.2 (by decide)).1

section RatEvalB

attribute [local semireducible] Rat.mul Rat.add Rat.sub Rat.inv

/-- C6 (counterexample): the gap clause of the claimed invariant fails for
`convert_plain_lyrics_to_lines`: on `"a\n\nb"` the first line's duration
is `5.0` but the gap to the next line's time is `10.0`. -/
theorem c6_invariant_counterexample :
    ¬ lyricClaimInvariant (convert_plain_lyrics_to_lines ("a\n\nb".toList)) := by
  intro h
  have he : convert_plain_lyrics_to_lines ("a\n\nb".toList) =
      [⟨0, ['a'], some 5⟩, ⟨10, ['b'], some 5⟩] := by decide
  rw [he] at h
  have hg := h.2.2.1
  simp only [Option.some.injEq] at hg
  norm_num at hg

end RatEvalB

/-- C6 (amended): `parse_lrc_format` output satisfies the full claimed
invariant (sorted ascending, non-negative times, non-empty texts, each
non-last duration equal to the gap, last duration `3.0`);
`convert_plain_lyrics_to_lines` output is sorted ascending with
non-negative times and non-empty texts, but carries the constant duration
`5.0`, which equals the inter-line gap only when no blank input lines
intervene. -/
theorem c6_invariant_amended : ∀ lrc pl : RStr,
    (sortedByTime (parse_lrc_format lrc) ∧
      (∀ x ∈ parse_lrc_format lrc, 0 ≤ x.time ∧ x.text ≠ []) ∧
      gapOk (parse_lrc_format lrc) ∧
      (∀ x, (parse_lrc_format lrc).getLast? = some x → x.duration = some 3)) ∧
    (sortedByTime (convert_plain_lyrics_to_lines pl) ∧
      ∀ x ∈ convert_plain_lyrics_to_lines pl,
        0 ≤ x.time ∧ x.text ≠ [] ∧ x.duration = some 5) := by
  intro lrc pl
  refine ⟨parse_lrc_format_invariant lrc, ?_, fun x hx => ?_⟩
  · unfold sortedByTime
    rw [convert_plain_eq]
    exact (plain_filterMap_sorted 0 _).imp (fun h => le_of_lt h)
  · rw [convert_plain_eq] at hx
    obtain ⟨h1, h2, h3, -⟩ := plain_filterMap_mem 0 _ x hx
    exact ⟨h3, h2, h1⟩

section RatEvalC

attribute [local semireducible] Rat.mul Rat.add Rat.sub Rat.inv

/-- C6 (witness): the amended invariant applied to concrete inputs. -/
theorem c6_invariant_witness :
    0 ≤ (⟨1, ['a'], some 3⟩ : LyricLine).time ∧
      (⟨1, ['a'], some 3⟩ : LyricLine).text ≠ [] :=
  ((c6_invariant_amended ("[00:01]a".toList) ("x".toList)).1.2.1
    ⟨1, ['a'], some 3⟩ (by decide))

end RatEvalC

/-- C7: the candidate list built by `fetch_lyrics` (whenever the build
completes without a cleaner panic) has strictly descending — hence
pairwise-distinct — priorities, ranks every wildcard variant above every
exact variant, and contains no candidate whose query text is blank. -/
theorem c7_candidates_ranked : ∀ (t a : RStr) (cs : List SearchCandidate),
    build_candidates t a = some cs →
    cs.Pairwise (fun x y => x.priority > y.priority) ∧
    (∀ x ∈ cs, x.kind = CandKind.wildcard → ∀ y ∈ cs,
      y.kind = CandKind.exact → x.priority > y.priority) ∧
    (∀ x ∈ cs, trimS x.query ≠ []) :=
  fun _ _ _ h => build_candidates_props h

/-- C7 (witness): the ranking property on the concrete pair
`("a", "b")`. -/
theorem c7_candidates_ranked_witness :
    (build_candidates ("a".toList) ("b".toList)).elim False
      (fun cs => List.Pairwise (fun x y => x.priority > y.priority) cs) := by
  cases h : build_candidates ("a".toList) ("b".toList) with
  | none => exact absurd h (by decide)
  | some cs => exact (c7_candidates_ranked _ _ cs h).1

/-- C8: over any sequence of processed task completions (any completion
order, truncated arbitrarily by the overall timeout) the orchestrator
returns an error iff no processed candidate produced non-empty lyrics;
error completions are swallowed without effect; and any captured best —
even one outranked by unfinished candidates — is returned as success
whether or not the overall timeout fired. -/
theorem c8_error_iff_nothing_captured :
    ∀ (events : List FetchEvent) (timedOut : Bool) (top : Nat),
    ((∃ r, search_strict_priority_outcome events timedOut top = Except.ok r) ↔
      ∃ p ls, FetchEvent.ok p ls ∈ events ∧ ls ≠ []) ∧
    (search_strict_priority_outcome (FetchEvent.err :: events) timedOut top =
      search_strict_priority_outcome events timedOut top) ∧
    (∀ w, raceLoop top events none = some w →
      search_strict_priority_outcome events timedOut top = Except.ok w) := by
  intro events timedOut top
  refine ⟨?_, ?_, fun w hw => ?_⟩
  · unfold search_strict_priority_outcome
    cases h : raceLoop top events none with
    | some w =>
      constructor
      · intro _
        have hnone : ¬ (none = (none : Option (Nat × List LyricLine)) ∧
            ∀ p ls, FetchEvent.ok p ls ∈ events → ls = []) := by
          rw [← raceLoop_none_iff events (none : Option (Nat × List LyricLine)), h]
          simp
        push_neg at hnone
        obtain ⟨p, ls, hm, hne⟩ := hnone rfl
        exact ⟨p, ls, hm, hne⟩
      · intro _
        exact ⟨w, rfl⟩
    | none =>
      rw [raceLoop_none_iff] at h
      constructor
      · rintro ⟨r, hr⟩
        cases hr
      · rintro ⟨p, ls, hm, hne⟩
        exact absurd (h.2 p ls hm) hne
  · unfold search_strict_priority_outcome
    rw [raceLoop_err]
  · unfold search_strict_priority_outcome
    rw [hw]

/-- C8 (witness): swallowing of an error completion on a concrete event
sequence. -/
theorem c8_error_iff_nothing_captured_witness :
    search_strict_priority_outcome
        (FetchEvent.err :: [FetchEvent.ok 5 [⟨0, ['a'], none⟩]]) true 10 =
      search_strict_priority_outcome [FetchEvent.ok 5 [⟨0, ['a'], none⟩]] true 10 :=
  (c8_error_iff_nothing_captured [FetchEvent.ok 5 [⟨0, ['a'], none⟩]] true 10).2.1

/-- C9: `remove_artist_from_track` never lengthens the track name (each of
its three replacement steps is accepted only when it strictly shortens the
byte length) and never empties a non-empty one (each step is accepted only
when non-empty). -/
theorem c9_remove_artist_bounds : ∀ track artist : RStr,
    byteLen (remove_artist_from_track track artist) ≤ byteLen track ∧
    (track ≠ [] → remove_artist_from_track track artist ≠ []) := by
  intro track artist
  unfold remove_artist_from_track
  split
  · exact ⟨le_refl _, fun h => h⟩
  · dsimp only
    constructor
    · exact le_trans (raStep_le _ _) (le_trans (raStep_le _ _) (raStep_le _ _))
    · intro h
      exact raStep_ne_nil _ (raStep_ne_nil _ (raStep_ne_nil _ h))

/-- C9 (witness): the bounds at a concrete stripping instance. -/
theorem c9_remove_artist_bounds_witness :
    byteLen (remove_artist_from_track ("Artist - Song".toList)
        ("Artist".toList)) ≤ byteLen ("Artist - Song".toList) ∧
    remove_artist_from_track ("Artist - Song".toList) ("Artist".toList) ≠ [] :=
  ⟨(c9_remove_artist_bounds ("Artist - Song".toList) ("Artist".toList)).1,
    (c9_remove_artist_bounds ("Artist - Song".toList) ("Artist".toList)).2
      (by decide)⟩

/-- C10: when the track name is empty or whitespace-only, every candidate
guard fails (the cleaned and artist-stripped variants are all blank too),
so `fetch_lyrics` returns the "No valid search candidates" error before
reaching `search_strict_priority` — no provider request is built and no
candidate task is spawned. -/
theorem c10_blank_track_early_error : ∀ track artist : RStr,
    trimS track = [] →
    fetch_lyrics_plan track artist =
      some (Except.error ("No valid search candidates".toList)) := by
  intro t a ht
  unfold fetch_lyrics_plan
  rw [build_candidates_ws ht]
  simp

/-- C10 (witness): the early error on a concrete whitespace-only track
name. -/
theorem c10_blank_track_early_error_witness :
    fetch_lyrics_plan ("  ".toList) ("x".toList) =
      some (Except.error ("No valid search candidates".toList)) :=
  c10_blank_track_early_error ("  ".toList) ("x".toList) (by decide)
